import Mathlib

/-!
# Chunk upload service of teldrive (pkg/services/upload.go) and asset extraction script
(scripts/extract.go)

A shallow embedding of `UploadsUpload`, `UploadsPartsById`, `msgDocument` and
`generateRandomSalt`, and of `extractZip` with the functions of `path/filepath` it calls.

Conventions of the embedding

* Go `int` / `int64` values are `Int`; the code performs no arithmetic on them
  apart from `time.Now().UTC().Add(retention)`.
* Every call that leaves the function (database, cache, Telegram RPC, random
  source, credential rotator) is answered by a field of `World` and recorded as an
  `Effect` in the run log, in program order. Each such call happens at most once per
  run, so one answer per call site is fully general.
* A Go `error` is a `GoError`; `Unwrap` chains are explicit, `errors.Is` walks them.
* A run either returns a value, returns an error, or stops with a runtime panic
  (`Outcome.fault`): unchecked type assertions and method calls on a nil interface.
* Logging calls have no effect on results and are left out, together with the
  variables only they read (`channelUser`, `index`).
* Library or repository functions whose body is not part of the two source files are
  fields of `Deps` (`crypt.EncryptedSize`, `api.NewOptString`, `mapper.ToUploadOut`,
  `sha256`).
-/

namespace Teldrive

/-! ## Go errors -/

/-- A Go error value. `deadlineExceeded` is the sentinel `context.DeadlineExceeded`,
`uploadFailed` is the package variable `ErrUploadFailed`, `new` is any error without an
`Unwrap` method (`errors.New`, `fmt.Errorf` without `%w`, a foreign leaf error), `wrap` is
an error with the given text whose `Unwrap` yields `inner`, and `apiError` is the
struct literal `&apiError{err: err, code: code}`. -/
inductive GoError where
  | deadlineExceeded
  | uploadFailed
  | new (text : String)
  | wrap (text : String) (inner : GoError)
  | apiError (err : GoError) (code : Int)
deriving DecidableEq, Repr

/-- The text of an error, `err.Error()`. An `apiError` reports the text of the error it
carries. -/
def GoError.Error : GoError → String
  | .deadlineExceeded => "context deadline exceeded"
  | .uploadFailed => "upload failed"
  | .new text => text
  | .wrap text _ => text
  | .apiError err _ => err.Error

/-- The error itself followed by everything reachable through `Unwrap`. -/
def GoError.chain : GoError → List GoError
  | .deadlineExceeded => [.deadlineExceeded]
  | .uploadFailed => [.uploadFailed]
  | .new text => [.new text]
  | .wrap text inner => .wrap text inner :: inner.chain
  | .apiError err code => .apiError err code :: err.chain

/-- Go `errors.Is(err, target)`: some error of the chain equals the target. -/
def errorsIs (err target : GoError) : Bool :=
  decide (target ∈ err.chain)

/-- Go `fmt.Errorf(pre + "%w", err)`: the text is the format prefix followed by the text of
the wrapped error, and `Unwrap` yields the wrapped error. -/
def fmtErrorfW (pre : String) (err : GoError) : GoError :=
  .wrap (pre ++ err.Error) err

/-- Go `strings.Contains(s, substr)`. -/
def stringsContains (s substr : String) : Bool :=
  decide (substr.data <:+: s.data)

/-- The code field of an `apiError`; any other error carries none. -/
def GoError.code : GoError → Option Int
  | .apiError _ code => some code
  | _ => none

/-! ## Results of a run -/

/-- What a function call ends with: a value, a Go error, or a runtime panic. -/
inductive Outcome (α : Type) where
  | ok (val : α)
  | err (e : GoError)
  | fault
deriving DecidableEq, Repr

/-- The result of a Go expression that returns no error but may panic. -/
inductive Panicky (α : Type) where
  | ret (val : α)
  | panic
deriving DecidableEq, Repr

/-! ## Telegram types (gotd `tg` package), as far as the code inspects them -/

/-- The resolved channel handle, `*tg.InputChannel`. -/
structure InputChannel where
  channelID : Int
  accessHash : Int
deriving DecidableEq, Repr

/-- The non-empty document, `*tg.Document`. -/
structure Document where
  id : Int
  size : Int
deriving DecidableEq, Repr

/-- The interface `tg.DocumentClass`. -/
inductive DocumentClass where
  | documentEmpty (id : Int)
  | document (doc : Document)
deriving DecidableEq, Repr

/-- The interface `tg.MessageMediaClass`. The `Document` field of
`*tg.MessageMediaDocument` is optional: `none` is the nil interface value. -/
inductive MessageMediaClass where
  | messageMediaDocument (document : Option DocumentClass)
  | otherMedia (typeName : String)
deriving DecidableEq, Repr

/-- The regular message, `*tg.Message`. The `Media` field is optional. -/
structure Message where
  id : Int
  media : Option MessageMediaClass
deriving DecidableEq, Repr

/-- The interface `tg.MessageClass`. -/
inductive MessageClass where
  | messageEmpty (id : Int)
  | message (msg : Message)
  | messageService (id : Int)
deriving DecidableEq, Repr

/-- The interface `tg.UpdateClass`: the new-channel-message update, or any other kind. -/
inductive UpdateClass where
  | updateNewChannelMessage (message : MessageClass)
  | otherUpdate (typeName : String)
deriving DecidableEq, Repr

/-- The interface `tg.UpdatesClass`, the response of a send. -/
inductive UpdatesClass where
  | updates (updates : List UpdateClass)
  | otherUpdates (typeName : String)
deriving DecidableEq, Repr

/-- The interface `tg.MessagesMessagesClass`, the response of `ChannelsGetMessages`. -/
inductive MessagesMessagesClass where
  | messagesChannelMessages (messages : List MessageClass)
  | otherMessages (typeName : String)
deriving DecidableEq, Repr

/-- The method `AsNotEmpty` of `tg.MessageClass`: every variant but `MessageEmpty`. -/
def MessageClass.AsNotEmpty : MessageClass → Option MessageClass
  | .messageEmpty _ => none
  | .message msg => some (.message msg)
  | .messageService id => some (.messageService id)

/-- The method `AsNotEmpty` of `tg.DocumentClass`. -/
def DocumentClass.AsNotEmpty : DocumentClass → Option Document
  | .documentEmpty _ => none
  | .document doc => some doc

/-! ## Records, requests and responses -/

/-- The persisted chunk record, `models.Upload`. `createdAt` is filled in by the store
at insert time. -/
structure Upload where
  name : String
  uploadId : String
  partId : Int
  channelId : Int
  size : Int
  partNo : Int
  userId : Int
  encrypted : Bool
  salt : String
  createdAt : Int
deriving DecidableEq, Repr

/-- The optional string of the API package, `api.OptString`. -/
structure OptString where
  value : String
  set : Bool
deriving DecidableEq, Repr

/-- The upload response, `api.UploadPart`. A fresh value has its optional salt unset. -/
structure UploadPart where
  name : String
  partId : Int
  channelId : Int
  partNo : Int
  size : Int
  encrypted : Bool
  salt : OptString
deriving DecidableEq, Repr

/-- The method `SetSalt` of `api.UploadPart`: it stores its argument in the salt field. -/
def UploadPart.SetSalt (out : UploadPart) (val : OptString) : UploadPart :=
  { out with salt := val }

/-- The request parameters, `api.UploadsUploadParams`. `encrypted` is
`params.Encrypted.Value` and `channelId` is `params.ChannelId.Value`, the only parts of the
two optional parameters the code reads. -/
structure UploadsUploadParams where
  id : String
  partNo : Int
  partName : String
  fileName : String
  channelId : Int
  contentLength : Int
  encrypted : Bool
deriving DecidableEq, Repr

/-- The configuration the code reads: `cnf.TG.Uploads.EncryptionKey` and
`cnf.TG.Uploads.Retention`. -/
structure Config where
  encryptionKey : String
  retention : Int
deriving DecidableEq, Repr

/-- Functions called by the code whose bodies are outside the two source files. -/
structure Deps where
  /-- Go `crypt.EncryptedSize`. -/
  EncryptedSize : Int → Int
  /-- Go `api.NewOptString`. -/
  NewOptString : String → OptString
  /-- Go `mapper.ToUploadOut`. -/
  ToUploadOut : List Upload → List UploadPart
  /-- Go `sha256.New()`, `Write` and `Sum(nil)` on a byte slice. -/
  sha256Sum : List Nat → List Nat
  /-- A SHA-256 sum has `sha256.Size` bytes, which is 32. -/
  sha256Sum_length : ∀ bytes, (sha256Sum bytes).length = 32

/-- The answers of everything outside the function during one call. -/
structure World where
  /-- Go `auth.GetUser(ctx)`. -/
  userId : Int
  /-- Go `getDefaultChannel(a.db, a.cache, userId)`. -/
  defaultChannel : Except GoError Int
  /-- Go `getBotsToken(a.db, a.cache, userId, channelId)`. -/
  botsToken : Except GoError (List String)
  /-- The error of `tgc.AuthClient`. -/
  authClient : Option GoError
  /-- Go `a.worker.Next(channelId)`. -/
  workerNext : String × Int
  /-- The error of `tgc.BotClient`. -/
  botClient : Option GoError
  /-- The error with which `tgc.RunWithAuth` stops before it runs the callback. -/
  runAuth : Option GoError
  /-- Go `tgc.GetChannelById(ctx, client.API(), channelId)`. -/
  channelById : Except GoError InputChannel
  /-- Go `rand.Read(randomBytes)`: the bytes read. The error result of `crypto/rand.Read`
  is nil on every return; when the random source fails the call does not return and the
  process is aborted, which is no run of the function. -/
  randRead : List Nat
  /-- The error of `crypt.NewCipher`. -/
  newCipher : Option GoError
  /-- The error of `cipher.EncryptData`. -/
  encryptData : Option GoError
  /-- The error of `u.Upload`. -/
  upload : Option GoError
  /-- Go `target.Media(ctx, document)`. -/
  sendMedia : Except GoError UpdatesClass
  /-- The error of `a.db.Create(partUpload)`. -/
  dbCreate : Option GoError
  /-- Go `client.ChannelsGetMessages`: the error, or the response, which may be nil. -/
  getMessages : Except GoError (Option MessagesMessagesClass)
  /-- The error of `client.ChannelsDeleteMessages`, which the code discards at both of its
  calls (lines 295 and 341). -/
  deleteMessages : Option GoError
  /-- The time at which the store stamps an inserted record. -/
  now : Int

/-- The calls that leave the function, in the order the code makes them. -/
inductive Effect where
  | getDefaultChannel (userId : Int)
  | getBotsToken (userId channelId : Int)
  | authClient
  | workerSet (tokens : List String) (channelId : Int)
  | workerNext (channelId : Int)
  | botClient (token : String)
  | newPool
  | poolClose
  | runWithAuth (token : String)
  | getChannelById (channelId : Int)
  | randRead (n : Nat)
  | newCipher (key salt : String)
  | encryptData
  | poolDefault
  | upload (partName : String) (size : Int)
  | sendMedia (channel : InputChannel) (fileName : String)
  | dbCreate (record : Upload)
  | channelsDeleteMessages (channel : InputChannel) (ids : List Int)
  | channelsGetMessages (channel : InputChannel) (ids : List Int)
deriving DecidableEq, Repr

/-- A finished run: how it ended, the calls it made, and the chunk records stored
afterwards. -/
structure Run (α : Type) where
  outcome : Outcome α
  log : List Effect
  db : List Upload

/-- The run with further calls recorded in front of its own. -/
def Run.prepend {α : Type} (pre : List Effect) (r : Run α) : Run α :=
  ⟨r.outcome, pre ++ r.log, r.db⟩

/-! ## The code -/

/-- The package variable `saltLength`. -/
def saltLength : Nat := 32

/-- The alphabet of Go `base64.URLEncoding`. -/
def base64URLAlphabet : List Char :=
  "ABCDEFGHIJKLMNOPQRSTUVWXYZabcdefghijklmnopqrstuvwxyz0123456789-_".data

/-- The character of `base64.URLEncoding` for a value of six bits. -/
def base64URLChar (n : Nat) : Char :=
  base64URLAlphabet.getD n '='

/-- The characters of `base64.URLEncoding` for a list of bytes: four characters for every
three bytes, and a last group padded with `=` for one or two remaining bytes. -/
def base64URLGroups : List Nat → List Char
  | [] => []
  | [a] => [base64URLChar (a / 4), base64URLChar (a % 4 * 16), '=', '=']
  | [a, b] =>
    [base64URLChar (a / 4), base64URLChar (a % 4 * 16 + b / 16),
     base64URLChar (b % 16 * 4), '=']
  | a :: b :: c :: rest =>
    base64URLChar (a / 4) :: base64URLChar (a % 4 * 16 + b / 16) ::
      base64URLChar (b % 16 * 4 + c / 64) :: base64URLChar (c % 64) :: base64URLGroups rest

/-- Go `base64.URLEncoding.EncodeToString`. -/
def base64URLEncode (bytes : List Nat) : String :=
  String.mk (base64URLGroups bytes)

/-- Go `generateRandomSalt` (upload.go, lines 424-436): the salt and the error. `err` is the
error result of `rand.Read`, which is nil on every return, so the branch of lines 427-429
is never taken and the salt is the URL-safe base64 text of the SHA-256 sum of the bytes
read. -/
def generateRandomSalt (d : Deps) (w : World) : String × Option GoError :=
  let randomBytes := w.randRead
  let err : Option GoError := none
  match err with
  | some err => ("", some err)
  | none => (base64URLEncode (d.sha256Sum randomBytes), none)

/-- Go `msgDocument` (upload.go, lines 407-422). `ret none` is the result `(nil, false)`.
The last line calls `AsNotEmpty` on the optional `Document` field; on the nil interface
value that call panics. -/
def msgDocument (m : MessageClass) : Panicky (Option Document) :=
  match m.AsNotEmpty with
  | none => .ret none
  | some res =>
    match res with
    | .message msg =>
      match msg.media with
      | some (.messageMediaDocument document) =>
        match document with
        | none => .panic
        | some doc => .ret doc.AsNotEmpty
      | _ => .ret none
    | _ => .ret none

/-- The loop of lines 248-262: the first update that is a new-channel-message ends the
loop, and its message is asserted to be a regular message without a check, which
panics on any other variant. `ret none` is the nil pointer left by a loop that found no
such update. -/
def findChannelMessage : List UpdateClass → Panicky (Option Message)
  | [] => .ret none
  | .updateNewChannelMessage m :: _ =>
    match m with
    | .message msg => .ret (some msg)
    | _ => .panic
  | .otherUpdate _ :: rest => findChannelMessage rest

/-- The error of line 268. -/
def noValidMessage : GoError :=
  .new "upload failed: no valid message received"

/-- The message-id extraction step, lines 248-269: the loop followed by the check
`message == nil || message.ID == 0`. -/
def extractMessage (updates : List UpdateClass) : Outcome Message :=
  match findChannelMessage updates with
  | .panic => .fault
  | .ret none => .err noValidMessage
  | .ret (some message) =>
    if message.id = 0 then .err noValidMessage else .ok message

/-- Lines 274-366 of the upload body: build the record, insert it, fetch the message back,
compare the sizes, and fill in the response. -/
def persistAndVerify (d : Deps) (w : World) (p : UploadsUploadParams) (channelId : Int)
    (channel : InputChannel) (salt : String) (fileSize : Int) (message : Message)
    (db : List Upload) : Run UploadPart :=
  let partUpload : Upload :=
    { name := p.partName, uploadId := p.id, partId := message.id, channelId := channelId,
      size := fileSize, partNo := p.partNo, userId := w.userId, encrypted := p.encrypted,
      salt := salt, createdAt := 0 }
  let create := Effect.dbCreate partUpload
  let delete := Effect.channelsDeleteMessages channel [message.id]
  let fetch := Effect.channelsGetMessages channel [message.id]
  match w.dbCreate with
  | some err => ⟨.err (fmtErrorfW "database insert failed: " err), [create, delete], db⟩
  | none =>
    let stored := db ++ [{ partUpload with createdAt := w.now }]
    match w.getMessages with
    | .error _ => ⟨.err .uploadFailed, [create, fetch], stored⟩
    | .ok none => ⟨.err .uploadFailed, [create, fetch], stored⟩
    | .ok (some (.otherMessages _)) => ⟨.err .uploadFailed, [create, fetch], stored⟩
    | .ok (some (.messagesChannelMessages [])) =>
      ⟨.err .uploadFailed, [create, fetch], stored⟩
    | .ok (some (.messagesChannelMessages (first :: _))) =>
      match msgDocument first with
      | .panic => ⟨.fault, [create, fetch], stored⟩
      | .ret none => ⟨.err .uploadFailed, [create, fetch], stored⟩
      | .ret (some doc) =>
        if doc.size ≠ fileSize then
          ⟨.err .uploadFailed, [create, fetch, delete], stored⟩
        else
          let out : UploadPart :=
            { name := partUpload.name, partId := partUpload.partId,
              channelId := partUpload.channelId, partNo := partUpload.partNo,
              size := partUpload.size, encrypted := partUpload.encrypted,
              salt := ⟨"", false⟩ }
          ⟨.ok (out.SetSalt (d.NewOptString partUpload.salt)), [create, fetch], stored⟩

/-- Lines 196-269 of the upload body, followed by `persistAndVerify`: lease a pooled
client, transfer the chunk, send it to the channel as a document, and extract the
message from the updates of the response. -/
def sendAndVerify (d : Deps) (w : World) (p : UploadsUploadParams) (channelId : Int)
    (channel : InputChannel) (salt : String) (fileSize : Int) (db : List Upload) :
    Run UploadPart :=
  let transfer := [Effect.poolDefault, Effect.upload p.partName fileSize]
  match w.upload with
  | some err => ⟨.err (fmtErrorfW "telegram upload failed: " err), transfer, db⟩
  | none =>
    let sent := transfer ++ [Effect.sendMedia channel p.partName]
    match w.sendMedia with
    | .error err => ⟨.err (fmtErrorfW "failed to send media to channel: " err), sent, db⟩
    | .ok (.otherUpdates typeName) =>
      ⟨.err (.new ("unexpected response type from telegram upload: " ++ typeName)), sent, db⟩
    | .ok (.updates updates) =>
      match extractMessage updates with
      | .fault => ⟨.fault, sent, db⟩
      | .err err => ⟨.err err, sent, db⟩
      | .ok message =>
        (persistAndVerify d w p channelId channel salt fileSize message db).prepend sent

/-- The callback passed to `tgc.RunWithAuth`, lines 159-368: resolve the channel,
encrypt when asked to (lines 177-194), then `sendAndVerify`. The error of
`generateRandomSalt` is discarded by the code (`salt, _ = generateRandomSalt()`). -/
def uploadBody (d : Deps) (cfg : Config) (w : World) (p : UploadsUploadParams)
    (channelId : Int) (db : List Upload) : Run UploadPart :=
  let resolve := Effect.getChannelById channelId
  match w.channelById with
  | .error err =>
    ⟨.err (fmtErrorfW ("failed to get channel " ++ toString channelId ++ ": ") err),
      [resolve], db⟩
  | .ok channel =>
    if p.encrypted = true then
      let salt := (generateRandomSalt d w).1
      let keyed := [resolve, Effect.randRead saltLength, Effect.newCipher cfg.encryptionKey salt]
      match w.newCipher with
      | some err => ⟨.err (fmtErrorfW "failed to create cipher: " err), keyed, db⟩
      | none =>
        match w.encryptData with
        | some err =>
          ⟨.err (fmtErrorfW "failed to encrypt data: " err), keyed ++ [Effect.encryptData], db⟩
        | none =>
          (sendAndVerify d w p channelId channel salt (d.EncryptedSize p.contentLength)
            db).prepend (keyed ++ [Effect.encryptData])
    else
      (sendAndVerify d w p channelId channel "" p.contentLength db).prepend [resolve]

/-- Go `tgc.RunWithAuth(ctx, client, token, f)`, whose body is outside the two source
files: it authorises the client and then runs the callback. The embedding takes the
authorisation error from the world; when there is none it runs the callback and returns
what the callback returns. -/
def RunWithAuth (w : World) (token : String) (f : Unit → Run UploadPart)
    (db : List Upload) : Run UploadPart :=
  match w.runAuth with
  | some err => ⟨.err err, [Effect.runWithAuth token], db⟩
  | none => (f ()).prepend [Effect.runWithAuth token]

/-- The error returned to the caller for a non-nil error of `tgc.RunWithAuth`,
lines 382-398. -/
def uploadErrorResponse (err : GoError) : GoError :=
  if errorsIs err .deadlineExceeded then
    .apiError (.new "upload timeout - please retry with smaller chunk size") 408
  else if stringsContains err.Error "FLOOD_WAIT" then
    .apiError (.new "telegram rate limit exceeded - please wait and retry") 429
  else if stringsContains err.Error "FILE_PART_" then
    .apiError (.new "invalid file part - please retry upload") 400
  else if stringsContains err.Error "CHANNEL_PRIVATE" then
    .apiError (.new "channel access denied - check bot permissions") 403
  else
    .apiError (fmtErrorfW "upload failed: " err) 500

/-- Lines 139-403 of `UploadsUpload`: create the pool, run the upload body under
`tgc.RunWithAuth`, close the pool (deferred), and turn a non-nil error into the
response of `uploadErrorResponse`. -/
def runUpload (d : Deps) (cfg : Config) (w : World) (p : UploadsUploadParams)
    (channelId : Int) (token : String) (db : List Upload) : Run UploadPart :=
  let r := RunWithAuth w token (fun _ => uploadBody d cfg w p channelId db) db
  let log := [Effect.newPool] ++ r.log ++ [Effect.poolClose]
  match r.outcome with
  | .ok out => ⟨.ok out, log, r.db⟩
  | .err err => ⟨.err (uploadErrorResponse err), log, r.db⟩
  | .fault => ⟨.fault, log, r.db⟩

/-- Lines 115-137 of `UploadsUpload`, followed by `runUpload`: look up the bot tokens of
the channel; without tokens use the session client (empty token), otherwise register
the tokens with the rotator and build a bot client for the next one. -/
def selectClient (d : Deps) (cfg : Config) (w : World) (p : UploadsUploadParams)
    (channelId : Int) (db : List Upload) : Run UploadPart :=
  let lookup := Effect.getBotsToken w.userId channelId
  match w.botsToken with
  | .error err => ⟨.err err, [lookup], db⟩
  | .ok tokens =>
    if tokens.length = 0 then
      match w.authClient with
      | some err => ⟨.err err, [lookup, Effect.authClient], db⟩
      | none => (runUpload d cfg w p channelId "" db).prepend [lookup, Effect.authClient]
    else
      let token := w.workerNext.1
      let rotate := [lookup, Effect.workerSet tokens channelId, Effect.workerNext channelId,
        Effect.botClient token]
      match w.botClient with
      | some err => ⟨.err err, rotate, db⟩
      | none => (runUpload d cfg w p channelId token db).prepend rotate

/-- The error of line 97. -/
def encryptionNotEnabled : GoError :=
  .apiError (.new "encryption is not enabled") 400

/-- Go `UploadsUpload` (upload.go, lines 85-405). -/
def UploadsUpload (d : Deps) (cfg : Config) (w : World) (p : UploadsUploadParams)
    (db : List Upload) : Run UploadPart :=
  if p.encrypted = true ∧ cfg.encryptionKey = "" then
    ⟨.err encryptionNotEnabled, [], db⟩
  else if p.channelId = 0 then
    match w.defaultChannel with
    | .error err => ⟨.err err, [Effect.getDefaultChannel w.userId], db⟩
    | .ok channelId =>
      (selectClient d cfg w p channelId db).prepend [Effect.getDefaultChannel w.userId]
  else
    selectClient d cfg w p p.channelId db

/-- Go `UploadsPartsById` (upload.go, lines 43-51). The query selects the records with
`upload_id = id` and `created_at < now + retention`, ordered by `part_no`; `findErr` is
the error of the query, if any. The store is only read. -/
def UploadsPartsById (d : Deps) (cfg : Config) (now : Int) (findErr : Option GoError)
    (db : List Upload) (id : String) : Except GoError (List UploadPart) :=
  match findErr with
  | some err => .error (.apiError err 0)
  | none =>
    let parts := (db.filter (fun u =>
      decide (u.uploadId = id) && decide (u.createdAt < now + cfg.retention))).insertionSort
        (fun a b => a.partNo ≤ b.partNo)
    .ok (d.ToUploadOut parts)

/-! ## Shape of a run -/

/-- The calls of lines 274-350: the insert, the fetch and the delete. -/
def Effect.isStore : Effect → Bool
  | .dbCreate _ => true
  | .channelsDeleteMessages _ _ => true
  | .channelsGetMessages _ _ => true
  | _ => false

/-- The size handed to the transfer: the content length, or its encrypted size. -/
def transmittedSize (d : Deps) (p : UploadsUploadParams) : Int :=
  if p.encrypted = true then d.EncryptedSize p.contentLength else p.contentLength

/-- The salt variable of the upload body once the encryption block is passed. -/
def saltOf (d : Deps) (w : World) (p : UploadsUploadParams) : String :=
  if p.encrypted = true then (generateRandomSalt d w).1 else ""

/-- What `runUpload` makes of the outcome of the upload body. -/
def finishOutcome : Outcome UploadPart → Outcome UploadPart
  | .ok out => .ok out
  | .err e => .err (uploadErrorResponse e)
  | .fault => .fault

/-- The run ended before the insert: none of the calls of lines 274-350 was made, the
store is unchanged, and the run is not a success. -/
def Stopped (db : List Upload) (r : Run UploadPart) : Prop :=
  (∀ e ∈ r.log, e.isStore = false) ∧ (∀ out, r.outcome ≠ .ok out) ∧ r.db = db

/-- The run reached the insert with the given channel and message: its log is the log of
`persistAndVerify` between calls that are not store calls, and its outcome is the outcome
of `persistAndVerify` passed through `f`. -/
def Reached (d : Deps) (w : World) (p : UploadsUploadParams) (db : List Upload)
    (f : Outcome UploadPart → Outcome UploadPart) (r : Run UploadPart) (channelId : Int)
    (channel : InputChannel) (message : Message) (pre post : List Effect) : Prop :=
  w.channelById = .ok channel ∧
  (∃ updates, w.sendMedia = .ok (.updates updates) ∧ extractMessage updates = .ok message) ∧
  (∀ e ∈ pre, e.isStore = false) ∧ (∀ e ∈ post, e.isStore = false) ∧
  r.log = pre ++ (persistAndVerify d w p channelId channel (saltOf d w p)
    (transmittedSize d p) message db).log ++ post ∧
  r.db = (persistAndVerify d w p channelId channel (saltOf d w p)
    (transmittedSize d p) message db).db ∧
  r.outcome = f (persistAndVerify d w p channelId channel (saltOf d w p)
    (transmittedSize d p) message db).outcome

/-- The record built at lines 274-284 for the given channel id, salt, size and message. -/
def partUploadOf (w : World) (p : UploadsUploadParams) (channelId : Int) (salt : String)
    (fileSize : Int) (message : Message) : Upload :=
  { name := p.partName, uploadId := p.id, partId := message.id, channelId := channelId,
    size := fileSize, partNo := p.partNo, userId := w.userId, encrypted := p.encrypted,
    salt := salt, createdAt := 0 }

/-! ## Notions of the specification -/

/-- The message carried by a new-channel-message update; nothing for another update. -/
def UpdateClass.asNewChannelMessage : UpdateClass → Option MessageClass
  | .updateNewChannelMessage message => some message
  | .otherUpdate _ => none

/-- The id of a message of any variant. -/
def MessageClass.id : MessageClass → Int
  | .messageEmpty id => id
  | .message msg => msg.id
  | .messageService id => id

/-- The message of the first new-channel-message update of the list. -/
def firstChannelMessage (updates : List UpdateClass) : Option MessageClass :=
  (updates.filterMap UpdateClass.asNewChannelMessage).head?

/-- The message of the first update of the list that is a new-channel-message with a
non-zero message id, in the words of the specification. -/
def firstNonZeroChannelMessage (updates : List UpdateClass) : Option MessageClass :=
  (updates.filterMap UpdateClass.asNewChannelMessage).find? (fun m => decide (m.id ≠ 0))

/-- A record lies within the retention window at time `now`: it was created no longer than
`retention` before `now`, in the words of the specification. -/
def withinRetention (now retention : Int) (u : Upload) : Bool :=
  decide (now - retention ≤ u.createdAt)

/-! ## Concrete inputs -/

/-- A concrete instance of the outside functions, for evaluating the code on concrete
inputs: the encrypted size adds a 32-byte header and 16 bytes per 64 KiB block, the
optional-string constructor returns its argument marked as set, as the constructor of
the generated API package does, the mapper copies the fields, and the sum is 32 zero
bytes whatever the input. -/
def exampleDeps : Deps where
  EncryptedSize := fun n => 32 + n + 16 * ((n + 65535) / 65536)
  NewOptString := fun v => ⟨v, true⟩
  ToUploadOut := fun parts => parts.map (fun u =>
    ⟨u.name, u.partId, u.channelId, u.partNo, u.size, u.encrypted, ⟨u.salt, true⟩⟩)
  sha256Sum := fun _ => List.replicate 32 0
  sha256Sum_length := fun _ => List.length_replicate 32 0

/-- A request for chunk 1 of a session: 1048576 bytes, not encrypted, channel 100. -/
def exampleParams : UploadsUploadParams where
  id := "session"
  partNo := 1
  partName := "part-1"
  fileName := "file.bin"
  channelId := 100
  contentLength := 1048576
  encrypted := false

/-- A document message with the given id and document size. -/
def documentMessage (id size : Int) : MessageClass :=
  .message ⟨id, some (.messageMediaDocument (some (.document ⟨1, size⟩)))⟩

/-- A world in which every call succeeds: no bot tokens, the send answers with one
new-channel-message update for message 7, and the fetch returns a document of the given
size. -/
def exampleWorld (size : Int) : World where
  userId := 1
  defaultChannel := .ok 100
  botsToken := .ok []
  authClient := none
  workerNext := ("", 0)
  botClient := none
  runAuth := none
  channelById := .ok ⟨100, 5⟩
  randRead := List.replicate 32 0
  newCipher := none
  encryptData := none
  upload := none
  sendMedia := .ok (.updates [.updateNewChannelMessage (documentMessage 7 size)])
  dbCreate := none
  getMessages := .ok (some (.messagesChannelMessages [documentMessage 7 size]))
  deleteMessages := none
  now := 1000

/-- The configuration of the examples: no master key, a retention of 10 time units. -/
def exampleConfig : Config := ⟨"", 10⟩

/-- The record that `UploadsUpload` hands to the store for `exampleParams` in an
`exampleWorld`. -/
def exampleRecord : Upload where
  name := "part-1"
  uploadId := "session"
  partId := 7
  channelId := 100
  size := 1048576
  partNo := 1
  userId := 1
  encrypted := false
  salt := ""
  createdAt := 0

/-- The example world, except that the insert fails with an error that does not match any
particular class. -/
def insertFailsWorld : World :=
  { exampleWorld 1048576 with dbCreate := some (.new "duplicate key") }

/-- The example world, except that the insert fails with `context.DeadlineExceeded`. -/
def insertTimesOutWorld : World :=
  { exampleWorld 1048576 with dbCreate := some .deadlineExceeded }

/-- The example world, except that the verification fetch fails. -/
def fetchFailsWorld : World :=
  { exampleWorld 1048576 with getMessages := .error (.new "rpc error") }

/-- The example world, except that the fetched document is one byte short. -/
def sizeMismatchWorld : World :=
  { exampleWorld 1048576 with
    getMessages := .ok (some (.messagesChannelMessages [documentMessage 7 1048575])) }

/-- An encrypted request for the same chunk. -/
def encryptedParams : UploadsUploadParams :=
  { exampleParams with encrypted := true }

/-- A configuration with a master key. -/
def keyedConfig : Config := ⟨"master key", 10⟩

/-- The example world for the encrypted request: the fetched document has the encrypted
size of 1048576 bytes under `exampleDeps`, which is 1048864. -/
def encryptedWorld : World :=
  exampleWorld 1048864

/-- The world of the size mismatch, except that the delete request fails. -/
def deleteFailsWorld : World :=
  { sizeMismatchWorld with deleteMessages := some (.new "MESSAGE_DELETE_FORBIDDEN") }

/-- A record of the example session created at time 0, long before the retention window of
a listing at time 1000. -/
def expiredRecord : Upload :=
  { exampleRecord with createdAt := 0 }

/-- A record of the example session for chunk 2, created at time 995, within the retention
window of a listing at time 1000. -/
def freshRecord : Upload :=
  { exampleRecord with partId := 8, partNo := 2, createdAt := 995 }

/-- The example world, except that the transfer fails with a flood-wait error of the
transport. -/
def floodWaitWorld : World :=
  { exampleWorld 1048576 with upload := some (.new "rpc error code 420: FLOOD_WAIT (3)") }

/-- The record stored for the encrypted request in `encryptedWorld`: the salt is the
base64 text of 32 zero bytes. -/
def encryptedRecord : Upload :=
  { exampleRecord with
    size := 1048864
    encrypted := true
    salt := "AAAAAAAAAAAAAAAAAAAAAAAAAAAAAAAAAAAAAAAAAAA="
    createdAt := 1000 }

/-! ## The asset extraction script (scripts/extract.go)

Paths follow the Unix rules of `path/filepath`: the separator is `/` and there are no
volume names. A path is processed as its list of characters. -/

/-- Go `os.PathSeparator` on Unix. -/
def pathSeparator : Char := '/'

/-- The element `..` of a path. -/
def dotDot : List Char := ['.', '.']

/-- The pieces of a path between separators, empty pieces included. -/
def pathElements : List Char → List (List Char)
  | [] => [[]]
  | c :: rest =>
    if c = pathSeparator then [] :: pathElements rest
    else
      match pathElements rest with
      | [] => [[c]]
      | e :: es => (c :: e) :: es

/-- One turn of the loop of Go `filepath.Clean`, for the element `e` of the path. `out`
holds the elements written so far, last written first. An empty element and `.` are
skipped; `..` removes the last written element when that is not itself `..`, is written
when the path is not rooted, and is dropped at the root; any other element is written. -/
def cleanStep (rooted : Bool) (out : List (List Char)) (e : List Char) : List (List Char) :=
  if e = [] ∨ e = ['.'] then out
  else if e = dotDot then
    match out with
    | top :: below =>
      if top ≠ dotDot then below
      else if rooted then out
      else e :: out
    | [] => if rooted then out else e :: out
  else e :: out

/-- The loop of Go `filepath.Clean` over the elements of a path: the elements written, in
the order of the path. -/
def cleanElements (rooted : Bool) (es : List (List Char)) : List (List Char) :=
  (es.foldl (cleanStep rooted) []).reverse

/-- The elements written with a separator between them. -/
def joinElements : List (List Char) → List Char
  | [] => []
  | [e] => e
  | e :: rest => e ++ pathSeparator :: joinElements rest

/-- Go `filepath.Clean` on Unix: the shortest path equivalent to `path` by lexical
processing; the empty path and a path that cleans to nothing give `.`. -/
def filepathClean (path : String) : String :=
  if path = "" then "."
  else
    let rooted := decide (path.data.head? = some pathSeparator)
    let out := (if rooted then [pathSeparator] else []) ++
      joinElements (cleanElements rooted (pathElements path.data))
    if out = [] then "." else String.mk out

/-- Go `filepath.Join(dir, name)`: leading empty arguments are dropped, the rest is joined
with separators and cleaned; with nothing left the result is the empty string. -/
def filepathJoin (dir name : String) : String :=
  if dir ≠ "" then filepathClean (dir ++ "/" ++ name)
  else if name ≠ "" then filepathClean name
  else ""

/-- Go `filepath.HasPrefix(p, pre)` on Unix, which is `strings.HasPrefix`: the characters
of `p` start with those of `pre`. -/
def filepathHasPrefix (p pre : String) : Bool :=
  decide (pre.data <+: p.data)

/-- The path up to and including its last separator; nothing when it has none. -/
def dirPart : List Char → List Char
  | [] => []
  | c :: rest =>
    if pathSeparator ∈ rest then c :: dirPart rest
    else if c = pathSeparator then [c]
    else []

/-- Go `filepath.Dir(path)` on Unix: the path up to and including its last separator,
cleaned. -/
def filepathDir (path : String) : String :=
  filepathClean (String.mk (dirPart path.data))

/-- An entry of the archive, `*zip.File`, with the answers of the file system to the calls
that `extractZip` makes for it: `isDir` is `file.FileInfo().IsDir()`, `mkdirErr` the error
of `os.MkdirAll(filepath.Dir(path), ...)`, `createErr` the error of `os.OpenFile`,
`openErr` the error of `file.Open()` and `copyErr` the error of `io.Copy`. -/
structure ZipFile where
  name : String
  isDir : Bool
  mkdirErr : Option GoError
  createErr : Option GoError
  openErr : Option GoError
  copyErr : Option GoError
deriving DecidableEq, Repr

/-- The calls of `extractZip` on the archive and the file system, in program order. -/
inductive FsEffect where
  | openReader (zipPath : String)
  | closeReader
  | mkdirAll (path : String)
  | openFile (path : String)
  | openEntry (name : String)
  | copy (path : String) (name : String)
  | closeFile (path : String)
  | closeEntry (name : String)
deriving DecidableEq, Repr

/-- The path at which a call creates or writes a directory or a file, if it does. -/
def FsEffect.target : FsEffect → Option String
  | .mkdirAll path => some path
  | .openFile path => some path
  | .copy path _ => some path
  | _ => none

/-- The loop of `extractZip` (extract.go, lines 163-197) over the entries of the archive:
the error returned, if any, and the calls made. -/
def extractEntries (outputDir : String) : List ZipFile → Option GoError × List FsEffect
  | [] => (none, [])
  | file :: rest =>
    let path := filepathJoin outputDir file.name
    if filepathHasPrefix path (filepathClean outputDir ++ "/") = false then
      (some (.new ("invalid file path: " ++ file.name)), [])
    else if file.isDir = true then
      ((extractEntries outputDir rest).1,
        FsEffect.mkdirAll path :: (extractEntries outputDir rest).2)
    else
      match file.mkdirErr with
      | some err =>
        (some (fmtErrorfW "creating directory for file: " err),
          [FsEffect.mkdirAll (filepathDir path)])
      | none =>
        match file.createErr with
        | some err =>
          (some (fmtErrorfW "creating file: " err),
            [FsEffect.mkdirAll (filepathDir path), FsEffect.openFile path])
        | none =>
          match file.openErr with
          | some err =>
            (some (fmtErrorfW "opening zip entry: " err),
              [FsEffect.mkdirAll (filepathDir path), FsEffect.openFile path,
               FsEffect.openEntry file.name, FsEffect.closeFile path])
          | none =>
            match file.copyErr with
            | some err =>
              (some (fmtErrorfW "extracting file: " err),
                [FsEffect.mkdirAll (filepathDir path), FsEffect.openFile path,
                 FsEffect.openEntry file.name, FsEffect.copy path file.name,
                 FsEffect.closeFile path, FsEffect.closeEntry file.name])
            | none =>
              ((extractEntries outputDir rest).1,
                [FsEffect.mkdirAll (filepathDir path), FsEffect.openFile path,
                 FsEffect.openEntry file.name, FsEffect.copy path file.name,
                 FsEffect.closeFile path, FsEffect.closeEntry file.name] ++
                (extractEntries outputDir rest).2)

/-- Go `extractZip` (extract.go, lines 156-200). `openErr` is the error of
`zip.OpenReader(zipPath)` and `files` is `reader.File`; the reader is closed on every
return after it was opened (deferred). -/
def extractZip (openErr : Option GoError) (files : List ZipFile) (zipPath outputDir : String) :
    Option GoError × List FsEffect :=
  match openErr with
  | some err => (some (fmtErrorfW "opening zip: " err), [FsEffect.openReader zipPath])
  | none =>
    ((extractEntries outputDir files).1,
      FsEffect.openReader zipPath :: (extractEntries outputDir files).2 ++
        [FsEffect.closeReader])

/-! ### Where a path leads -/

/-- The directory reached from `pos`, given as its elements from the root with the deepest
first, by following the elements of a path: `..` goes to the parent and stays at the root,
`.` and an empty element stay, any other element goes down. -/
def walkElements : List (List Char) → List (List Char) → List (List Char)
  | pos, [] => pos
  | pos, e :: rest =>
    if e = [] ∨ e = ['.'] then walkElements pos rest
    else if e = dotDot then walkElements pos.tail rest
    else walkElements (e :: pos) rest

/-- The absolute location of a path, as its elements from the root, for a process whose
working directory has the elements `cwd`. -/
def resolvePath (cwd : List String) (path : String) : List String :=
  ((walkElements
      (if path.data.head? = some pathSeparator then [] else (cwd.map String.data).reverse)
      (pathElements path.data)).reverse).map String.mk

/-- The path lies in the directory `dir` or below it, in the words of the claim: it is not
outside the output directory. -/
def withinDir (cwd : List String) (dir path : String) : Bool :=
  decide (resolvePath cwd dir <+: resolvePath cwd path)

/-- An archive entry for a regular file for which every call of the file system
succeeds. -/
def plainFile (name : String) : ZipFile :=
  ⟨name, false, none, none, none, none⟩

/-- What holds of the elements written by the loop of `filepath.Clean`, last written first:
none is empty or `.` or contains a separator, every element written before a `..` is a
`..`, and a rooted path has no `..` written at all. -/
def Cleaned (rooted : Bool) (out : List (List Char)) : Prop :=
  (∀ e ∈ out, e ≠ [] ∧ e ≠ ['.'] ∧ pathSeparator ∉ e) ∧
  List.Pairwise (fun a b => a = dotDot → b = dotDot) out ∧
  (rooted = true → dotDot ∉ out)

/-! ## The transport, as far as the calls of the code change it -/

/-- The messages that the send created, as the updates of its response report them: the
ids of the messages of its new-channel-message updates. -/
def sentMessageIds (w : World) : List Int :=
  match w.sendMedia with
  | .ok (.updates updates) =>
    (updates.filterMap UpdateClass.asNewChannelMessage).map MessageClass.id
  | _ => []

/-- The messages held by the transport, as pairs of channel id and message id, after one
call of the code: a send adds the messages it created to the channel, a delete request
that succeeds removes the messages it names from the channel, a delete request that
fails removes nothing, and no other call changes the messages. -/
def transportStep (w : World) (messages : List (Int × Int)) : Effect → List (Int × Int)
  | .sendMedia channel _ => messages ++ (sentMessageIds w).map (fun m => (channel.channelID, m))
  | .channelsDeleteMessages channel ids =>
    if w.deleteMessages = none then
      messages.filter (fun m => decide (¬ (m.1 = channel.channelID ∧ m.2 ∈ ids)))
    else messages
  | _ => messages

/-- The messages held by the transport after the calls of a run, made in the order of the
log, when it held `before` at the start. -/
def transportAfter (w : World) (before : List (Int × Int)) (log : List Effect) :
    List (Int × Int) :=
  log.foldl (transportStep w) before

/-! ## The shape of a run of `UploadsUpload` -/

theorem Stopped.prepend_calls {db : List Upload} {r : Run UploadPart} (h : Stopped db r)
    (pre : List Effect) (hpre : ∀ e ∈ pre, e.isStore = false) :
    Stopped db (r.prepend pre) := by
  obtain ⟨h1, h2, h3⟩ := h
  refine ⟨?_, h2, h3⟩
  intro e he
  simp only [Run.prepend, List.mem_append] at he
  rcases he with he | he
  · exact hpre e he
  · exact h1 e he

theorem Reached.prepend_effects {d : Deps} {w : World} {p : UploadsUploadParams} {db : List Upload}
    {f : Outcome UploadPart → Outcome UploadPart} {r : Run UploadPart} {channelId : Int}
    {channel : InputChannel} {message : Message} {pre post : List Effect}
    (h : Reached d w p db f r channelId channel message pre post)
    (pre0 : List Effect) (hpre : ∀ e ∈ pre0, e.isStore = false) :
    Reached d w p db f (r.prepend pre0) channelId channel message (pre0 ++ pre) post := by
  obtain ⟨h1, h2, h3, h4, h5, h6, h7⟩ := h
  refine ⟨h1, h2, ?_, h4, ?_, h6, h7⟩
  · intro e he
    rcases List.mem_append.1 he with he | he
    · exact hpre e he
    · exact h3 e he
  · simp [Run.prepend, h5]

theorem sendAndVerify_cases (d : Deps) (w : World) (p : UploadsUploadParams)
    (channelId : Int) (channel : InputChannel) (db : List Upload)
    (hch : w.channelById = .ok channel) :
    Stopped db (sendAndVerify d w p channelId channel (saltOf d w p) (transmittedSize d p) db) ∨
    ∃ message pre, Reached d w p db id
      (sendAndVerify d w p channelId channel (saltOf d w p) (transmittedSize d p) db)
      channelId channel message pre [] := by
  unfold sendAndVerify
  split
  · left; simp [Stopped, Effect.isStore]
  · split
    · left; simp [Stopped, Effect.isStore]
    · left; simp [Stopped, Effect.isStore]
    · rename_i updates hsend
      split
      · left; simp [Stopped, Effect.isStore]
      · left; simp [Stopped, Effect.isStore]
      · rename_i message hmsg
        right
        refine ⟨message, [Effect.poolDefault, Effect.upload p.partName (transmittedSize d p)]
          ++ [Effect.sendMedia channel p.partName], hch, ⟨updates, hsend, hmsg⟩, ?_, ?_, ?_,
          rfl, rfl⟩
        · simp [Effect.isStore]
        · simp
        · simp [Run.prepend]

theorem uploadBody_cases (d : Deps) (cfg : Config) (w : World) (p : UploadsUploadParams)
    (channelId : Int) (db : List Upload) :
    Stopped db (uploadBody d cfg w p channelId db) ∨
    ∃ channel message pre, Reached d w p db id (uploadBody d cfg w p channelId db)
      channelId channel message pre [] := by
  unfold uploadBody
  split
  · left; simp [Stopped, Effect.isStore]
  · rename_i channel hch
    have key := sendAndVerify_cases d w p channelId channel db hch
    split
    · rename_i henc
      have hs : saltOf d w p = (generateRandomSalt d w).1 := by simp [saltOf, henc]
      have ht : transmittedSize d p = d.EncryptedSize p.contentLength := by
        simp [transmittedSize, henc]
      rw [hs, ht] at key
      split
      · left; simp [Stopped, Effect.isStore]
      · split
        · left; simp [Stopped, Effect.isStore]
        · rcases key with key | ⟨message, pre, key⟩
          · left
            exact key.prepend_calls _ (by simp [Effect.isStore])
          · right
            rw [← hs, ← ht] at key ⊢
            exact ⟨channel, message, _, key.prepend_effects _ (by simp [Effect.isStore])⟩
    · rename_i henc
      have hs : saltOf d w p = "" := by simp [saltOf, henc]
      have ht : transmittedSize d p = p.contentLength := by
        simp [transmittedSize, henc]
      rw [hs, ht] at key
      rcases key with key | ⟨message, pre, key⟩
      · left
        exact key.prepend_calls _ (by simp [Effect.isStore])
      · right
        rw [← hs, ← ht] at key ⊢
        exact ⟨channel, message, _, key.prepend_effects _ (by simp [Effect.isStore])⟩

theorem runUpload_eq (d : Deps) (cfg : Config) (w : World) (p : UploadsUploadParams)
    (channelId : Int) (token : String) (db : List Upload) (hauth : w.runAuth = none) :
    (runUpload d cfg w p channelId token db).log =
      [Effect.newPool, Effect.runWithAuth token] ++ (uploadBody d cfg w p channelId db).log
        ++ [Effect.poolClose] ∧
    (runUpload d cfg w p channelId token db).db = (uploadBody d cfg w p channelId db).db ∧
    (runUpload d cfg w p channelId token db).outcome =
      finishOutcome (uploadBody d cfg w p channelId db).outcome := by
  cases hout : (uploadBody d cfg w p channelId db).outcome <;>
    simp [runUpload, RunWithAuth, hauth, Run.prepend, hout, finishOutcome]

theorem runUpload_cases (d : Deps) (cfg : Config) (w : World) (p : UploadsUploadParams)
    (channelId : Int) (token : String) (db : List Upload) :
    Stopped db (runUpload d cfg w p channelId token db) ∨
    ∃ channel message pre post, Reached d w p db finishOutcome
      (runUpload d cfg w p channelId token db) channelId channel message pre post := by
  cases hauth : w.runAuth with
  | some err =>
    left
    simp [runUpload, RunWithAuth, hauth, Stopped, Effect.isStore]
  | none =>
    obtain ⟨hlog, hdb, hout⟩ := runUpload_eq d cfg w p channelId token db hauth
    rcases uploadBody_cases d cfg w p channelId db with ⟨h1, h2, h3⟩ | ⟨channel, message, pre, h⟩
    · left
      refine ⟨?_, ?_, by rw [hdb, h3]⟩
      · intro e he
        rw [hlog] at he
        simp only [List.mem_append, List.mem_cons, List.mem_singleton, List.not_mem_nil,
          or_false] at he
        rcases he with (he | he) | he
        · rcases he with rfl | rfl <;> rfl
        · exact h1 e he
        · subst he; rfl
      · intro out ho
        rw [hout] at ho
        cases hb : (uploadBody d cfg w p channelId db).outcome with
        | ok val => exact h2 val hb
        | err e => rw [hb] at ho; simp [finishOutcome] at ho
        | fault => rw [hb] at ho; simp [finishOutcome] at ho
    · right
      obtain ⟨h1, h2, h3, h4, h5, h6, h7⟩ := h
      refine ⟨channel, message, [Effect.newPool, Effect.runWithAuth token] ++ pre,
        [Effect.poolClose], h1, h2, ?_, ?_, ?_, ?_, ?_⟩
      · intro e he
        simp only [List.mem_append, List.mem_cons, List.mem_singleton, List.not_mem_nil,
          or_false] at he
        rcases he with (rfl | rfl) | he
        · rfl
        · rfl
        · exact h3 e he
      · intro e he
        simp only [List.mem_singleton] at he
        subst he; rfl
      · rw [hlog, h5]; simp
      · rw [hdb, h6]
      · rw [hout, h7]; rfl

theorem selectClient_cases (d : Deps) (cfg : Config) (w : World) (p : UploadsUploadParams)
    (channelId : Int) (db : List Upload) :
    Stopped db (selectClient d cfg w p channelId db) ∨
    ∃ channel message pre post, Reached d w p db finishOutcome
      (selectClient d cfg w p channelId db) channelId channel message pre post := by
  unfold selectClient
  split
  · left; simp [Stopped, Effect.isStore]
  · split
    · split
      · left; simp [Stopped, Effect.isStore]
      · rcases runUpload_cases d cfg w p channelId "" db with h | ⟨channel, message, pre, post, h⟩
        · left; exact h.prepend_calls _ (by simp [Effect.isStore])
        · right; exact ⟨channel, message, _, post, h.prepend_effects _ (by simp [Effect.isStore])⟩
    · split
      · left; simp [Stopped, Effect.isStore]
      · rcases runUpload_cases d cfg w p channelId w.workerNext.1 db with
          h | ⟨channel, message, pre, post, h⟩
        · left; exact h.prepend_calls _ (by simp [Effect.isStore])
        · right; exact ⟨channel, message, _, post, h.prepend_effects _ (by simp [Effect.isStore])⟩

/-- Every run of `UploadsUpload` either ends before the insert, or is a run of
`persistAndVerify` for the resolved channel and the extracted message, with the
transmitted size and the salt of the request, between calls that are not store calls. -/
theorem UploadsUpload_cases (d : Deps) (cfg : Config) (w : World) (p : UploadsUploadParams)
    (db : List Upload) :
    Stopped db (UploadsUpload d cfg w p db) ∨
    ∃ channelId channel message pre post, Reached d w p db finishOutcome
      (UploadsUpload d cfg w p db) channelId channel message pre post := by
  unfold UploadsUpload
  split
  · left; simp [Stopped]
  · split
    · split
      · left; simp [Stopped, Effect.isStore]
      · rename_i channelId _
        rcases selectClient_cases d cfg w p channelId db with
          h | ⟨channel, message, pre, post, h⟩
        · left; exact h.prepend_calls _ (by simp [Effect.isStore])
        · right
          exact ⟨channelId, channel, message, _, post, h.prepend_effects _ (by simp [Effect.isStore])⟩
    · rcases selectClient_cases d cfg w p p.channelId db with
        h | ⟨channel, message, pre, post, h⟩
      · left; exact h
      · right; exact ⟨p.channelId, channel, message, pre, post, h⟩

/-- A store call is in the log of a run that reached the insert exactly when it is in the
log of `persistAndVerify`. -/
theorem Reached.mem_log_iff {d : Deps} {w : World} {p : UploadsUploadParams}
    {db : List Upload} {f : Outcome UploadPart → Outcome UploadPart} {r : Run UploadPart}
    {channelId : Int} {channel : InputChannel} {message : Message} {pre post : List Effect}
    (h : Reached d w p db f r channelId channel message pre post) (e : Effect)
    (he : e.isStore = true) :
    e ∈ r.log ↔ e ∈ (persistAndVerify d w p channelId channel (saltOf d w p)
      (transmittedSize d p) message db).log := by
  obtain ⟨_, _, h3, h4, h5, _, _⟩ := h
  rw [h5]
  simp only [List.mem_append]
  constructor
  · rintro ((h | h) | h)
    · have := h3 e h; simp [he] at this
    · exact h
    · have := h4 e h; simp [he] at this
  · intro h; exact Or.inl (Or.inr h)

theorem extractMessage_ok_id {updates : List UpdateClass} {message : Message}
    (h : extractMessage updates = .ok message) : message.id ≠ 0 := by
  unfold extractMessage at h
  split at h
  · simp at h
  · simp at h
  · split at h
    · simp at h
    · rename_i hne
      simp only [Outcome.ok.injEq] at h
      subst h
      exact hne

theorem msgDocument_eq_some (first : MessageClass) (doc : Document) :
    msgDocument first = .ret (some doc) ↔
      ∃ msg, first = .message msg ∧
        msg.media = some (.messageMediaDocument (some (.document doc))) := by
  cases first with
  | messageEmpty id => simp [msgDocument, MessageClass.AsNotEmpty]
  | messageService id => simp [msgDocument, MessageClass.AsNotEmpty]
  | message msg =>
    obtain ⟨id, media⟩ := msg
    cases media with
    | none => simp [msgDocument, MessageClass.AsNotEmpty]
    | some m =>
      cases m with
      | otherMedia t => simp [msgDocument, MessageClass.AsNotEmpty]
      | messageMediaDocument document =>
        cases document with
        | none => simp [msgDocument, MessageClass.AsNotEmpty]
        | some dc =>
          cases dc with
          | documentEmpty i => simp [msgDocument, MessageClass.AsNotEmpty, DocumentClass.AsNotEmpty]
          | document d0 => simp [msgDocument, MessageClass.AsNotEmpty, DocumentClass.AsNotEmpty]

theorem uploadErrorResponse_uploadFailed :
    uploadErrorResponse .uploadFailed =
      .apiError (.wrap "upload failed: upload failed" .uploadFailed) 500 := by
  decide

/-- The run of `persistAndVerify` when the insert fails. -/
theorem persistAndVerify_insert_failed (d : Deps) (w : World) (p : UploadsUploadParams)
    (channelId : Int) (channel : InputChannel) (salt : String) (fileSize : Int)
    (message : Message) (db : List Upload) (e : GoError) (h : w.dbCreate = some e) :
    persistAndVerify d w p channelId channel salt fileSize message db =
      ⟨.err (fmtErrorfW "database insert failed: " e),
        [Effect.dbCreate (partUploadOf w p channelId salt fileSize message),
         Effect.channelsDeleteMessages channel [message.id]], db⟩ := by
  simp [persistAndVerify, partUploadOf, h]

theorem GoError.self_mem_chain (e : GoError) : e ∈ e.chain := by
  cases e <;> simp [GoError.chain]

/-- The run of `persistAndVerify` when the insert succeeds and the fetched document has
another size than the transmitted one. -/
theorem persistAndVerify_mismatch (d : Deps) (w : World) (p : UploadsUploadParams)
    (channelId : Int) (channel : InputChannel) (salt : String) (fileSize : Int)
    (message : Message) (db : List Upload) (first : MessageClass) (rest : List MessageClass)
    (doc : Document) (h : w.dbCreate = none)
    (hresp : w.getMessages = .ok (some (.messagesChannelMessages (first :: rest))))
    (hdoc : msgDocument first = .ret (some doc)) (hsize : doc.size ≠ fileSize) :
    persistAndVerify d w p channelId channel salt fileSize message db =
      ⟨.err .uploadFailed,
        [Effect.dbCreate (partUploadOf w p channelId salt fileSize message),
         Effect.channelsGetMessages channel [message.id],
         Effect.channelsDeleteMessages channel [message.id]],
        db ++ [{ partUploadOf w p channelId salt fileSize message with createdAt := w.now }]⟩ := by
  simp [persistAndVerify, partUploadOf, h, hresp, hdoc, hsize]

/-- The run of `persistAndVerify` when the insert succeeds and the fetched document has
the transmitted size. -/
theorem persistAndVerify_match (d : Deps) (w : World) (p : UploadsUploadParams)
    (channelId : Int) (channel : InputChannel) (salt : String) (fileSize : Int)
    (message : Message) (db : List Upload) (first : MessageClass) (rest : List MessageClass)
    (doc : Document) (h : w.dbCreate = none)
    (hresp : w.getMessages = .ok (some (.messagesChannelMessages (first :: rest))))
    (hdoc : msgDocument first = .ret (some doc)) (hsize : doc.size = fileSize) :
    persistAndVerify d w p channelId channel salt fileSize message db =
      ⟨.ok { name := p.partName, partId := message.id, channelId := channelId,
             partNo := p.partNo, size := fileSize, encrypted := p.encrypted,
             salt := d.NewOptString salt },
        [Effect.dbCreate (partUploadOf w p channelId salt fileSize message),
         Effect.channelsGetMessages channel [message.id]],
        db ++ [{ partUploadOf w p channelId salt fileSize message with createdAt := w.now }]⟩ := by
  simp [persistAndVerify, partUploadOf, h, hresp, hdoc, hsize, UploadPart.SetSalt]

/-- The run of `persistAndVerify` when the insert succeeds and the fetch yields no
document: it stops after the fetch, with `ErrUploadFailed` or a panic. -/
theorem persistAndVerify_no_document (d : Deps) (w : World) (p : UploadsUploadParams)
    (channelId : Int) (channel : InputChannel) (salt : String) (fileSize : Int)
    (message : Message) (db : List Upload) (h : w.dbCreate = none)
    (hno : ¬ ∃ first rest doc,
      w.getMessages = .ok (some (.messagesChannelMessages (first :: rest))) ∧
      msgDocument first = .ret (some doc)) :
    ((persistAndVerify d w p channelId channel salt fileSize message db).outcome
        = .err .uploadFailed ∨
      (persistAndVerify d w p channelId channel salt fileSize message db).outcome = .fault) ∧
    (persistAndVerify d w p channelId channel salt fileSize message db).log =
      [Effect.dbCreate (partUploadOf w p channelId salt fileSize message),
         Effect.channelsGetMessages channel [message.id]] ∧
    (persistAndVerify d w p channelId channel salt fileSize message db).db =
      db ++ [{ partUploadOf w p channelId salt fileSize message with createdAt := w.now }] := by
  unfold persistAndVerify partUploadOf
  simp only [h]
  split
  · simp
  · simp
  · simp
  · simp
  · rename_i first rest hresp
    split
    · simp
    · simp
    · rename_i doc hdoc
      exact absurd ⟨first, rest, doc, hresp, hdoc⟩ hno

/-- The record and the response of a successful run. -/
theorem UploadsUpload_success_record (d : Deps) (cfg : Config) (w : World)
    (p : UploadsUploadParams) (db : List Upload) (out : UploadPart)
    (hok : (UploadsUpload d cfg w p db).outcome = .ok out) :
    ∃ channelId message,
      (∃ updates, w.sendMedia = .ok (.updates updates) ∧ extractMessage updates = .ok message) ∧
      (UploadsUpload d cfg w p db).db =
        db ++ [{ partUploadOf w p channelId (saltOf d w p) (transmittedSize d p) message with
          createdAt := w.now }] ∧
      (∀ record, Effect.dbCreate record ∈ (UploadsUpload d cfg w p db).log ↔
        record = partUploadOf w p channelId (saltOf d w p) (transmittedSize d p) message) ∧
      out = { name := p.partName, partId := message.id, channelId := channelId,
              partNo := p.partNo, size := transmittedSize d p, encrypted := p.encrypted,
              salt := d.NewOptString (saltOf d w p) } := by
  rcases UploadsUpload_cases d cfg w p db with
    ⟨_, h2, _⟩ | ⟨channelId, channel, message, pre, post, h⟩
  · exact absurd hok (h2 out)
  · have hmem := h.mem_log_iff
    obtain ⟨hch, hsent, _, _, _, hdb, hout⟩ := h
    rw [hok] at hout
    cases hins : w.dbCreate with
    | some e =>
      rw [persistAndVerify_insert_failed d w p channelId channel (saltOf d w p)
        (transmittedSize d p) message db e hins] at hout
      simp [finishOutcome] at hout
    | none =>
      by_cases hdocs : ∃ first rest doc,
          w.getMessages = .ok (some (.messagesChannelMessages (first :: rest))) ∧
          msgDocument first = .ret (some doc)
      · obtain ⟨first, rest, doc, hresp, hdoc⟩ := hdocs
        by_cases hsize : doc.size = transmittedSize d p
        · have hrun := persistAndVerify_match d w p channelId channel (saltOf d w p)
            (transmittedSize d p) message db first rest doc hins hresp hdoc hsize
          rw [hrun] at hmem hout hdb
          simp only [finishOutcome, Outcome.ok.injEq] at hout
          refine ⟨channelId, message, hsent, hdb, ?_, hout⟩
          intro record
          rw [hmem (Effect.dbCreate record) rfl]
          simp
        · have hrun := persistAndVerify_mismatch d w p channelId channel (saltOf d w p)
            (transmittedSize d p) message db first rest doc hins hresp hdoc hsize
          rw [hrun] at hout
          simp [finishOutcome] at hout
      · obtain ⟨ho, _, _⟩ := persistAndVerify_no_document d w p channelId channel
          (saltOf d w p) (transmittedSize d p) message db hins hdocs
        rcases ho with ho | ho <;>
        · rw [ho] at hout
          simp [finishOutcome] at hout

/-- The loop of lines 248-262 in terms of the first new-channel-message update. -/
theorem findChannelMessage_eq (updates : List UpdateClass) :
    findChannelMessage updates =
      match firstChannelMessage updates with
      | none => .ret none
      | some (.message msg) => .ret (some msg)
      | some _ => .panic := by
  induction updates with
  | nil => rfl
  | cons u rest ih =>
    cases u with
    | otherUpdate t =>
      simpa [findChannelMessage, firstChannelMessage, UpdateClass.asNewChannelMessage] using ih
    | updateNewChannelMessage m =>
      cases m <;>
        simp [findChannelMessage, firstChannelMessage, UpdateClass.asNewChannelMessage]

theorem Run.prepend_prepend {α : Type} (a b : List Effect) (r : Run α) :
    (r.prepend a).prepend b = r.prepend (b ++ a) := by
  simp [Run.prepend]

theorem selectClient_reaches_runUpload (d : Deps) (cfg : Config) (w : World)
    (p : UploadsUploadParams) (channelId : Int) (db : List Upload)
    (h : Effect.newPool ∈ (selectClient d cfg w p channelId db).log) :
    ∃ token pre,
      selectClient d cfg w p channelId db =
        (runUpload d cfg w p channelId token db).prepend pre := by
  unfold selectClient at h ⊢
  cases hbt : w.botsToken with
  | error e => simp [hbt] at h
  | ok tokens =>
    simp only [hbt] at h ⊢
    by_cases hl : tokens.length = 0
    · rw [if_pos hl] at h ⊢
      cases hac : w.authClient with
      | some e => simp [hac] at h
      | none => exact ⟨"", _, rfl⟩
    · rw [if_neg hl] at h ⊢
      cases hbc : w.botClient with
      | some e => simp [hbc] at h
      | none => exact ⟨w.workerNext.1, _, rfl⟩

/-- A call that created the pool is a run of `runUpload` after the lookups: the
hypothesis of the classification theorem holds for every call that ran the upload
body. -/
theorem UploadsUpload_reaches_runUpload (d : Deps) (cfg : Config) (w : World)
    (p : UploadsUploadParams) (db : List Upload)
    (h : Effect.newPool ∈ (UploadsUpload d cfg w p db).log) :
    ∃ channelId token pre,
      UploadsUpload d cfg w p db = (runUpload d cfg w p channelId token db).prepend pre := by
  unfold UploadsUpload at h ⊢
  by_cases hv : p.encrypted = true ∧ cfg.encryptionKey = ""
  · rw [if_pos hv] at h
    simp at h
  · rw [if_neg hv] at h ⊢
    by_cases hc : p.channelId = 0
    · rw [if_pos hc] at h ⊢
      cases hdc : w.defaultChannel with
      | error e => simp [hdc] at h
      | ok channelId =>
        simp only [hdc] at h ⊢
        have hs : Effect.newPool ∈ (selectClient d cfg w p channelId db).log := by
          simpa [Run.prepend] using h
        obtain ⟨token, pre, heq⟩ := selectClient_reaches_runUpload d cfg w p channelId db hs
        exact ⟨channelId, token, _, by rw [heq, Run.prepend_prepend]⟩
    · rw [if_neg hc] at h ⊢
      obtain ⟨token, pre, heq⟩ := selectClient_reaches_runUpload d cfg w p p.channelId db h
      exact ⟨p.channelId, token, pre, heq⟩

/-- The stage `runUpload` with the calls after `persistAndVerify` made explicit: only the
pool is closed. -/
theorem runUpload_cases_close (d : Deps) (cfg : Config) (w : World) (p : UploadsUploadParams)
    (channelId : Int) (token : String) (db : List Upload) :
    Stopped db (runUpload d cfg w p channelId token db) ∨
    ∃ channel message pre, Reached d w p db finishOutcome
      (runUpload d cfg w p channelId token db) channelId channel message pre
      [Effect.poolClose] := by
  cases hauth : w.runAuth with
  | some err =>
    left
    simp [runUpload, RunWithAuth, hauth, Stopped, Effect.isStore]
  | none =>
    obtain ⟨hlog, hdb, hout⟩ := runUpload_eq d cfg w p channelId token db hauth
    rcases uploadBody_cases d cfg w p channelId db with ⟨h1, h2, h3⟩ | ⟨channel, message, pre, h⟩
    · left
      refine ⟨?_, ?_, by rw [hdb, h3]⟩
      · intro e he
        rw [hlog] at he
        simp only [List.mem_append, List.mem_cons, List.mem_singleton, List.not_mem_nil,
          or_false] at he
        rcases he with (he | he) | he
        · rcases he with rfl | rfl <;> rfl
        · exact h1 e he
        · subst he; rfl
      · intro out ho
        rw [hout] at ho
        cases hb : (uploadBody d cfg w p channelId db).outcome with
        | ok val => exact h2 val hb
        | err e => rw [hb] at ho; simp [finishOutcome] at ho
        | fault => rw [hb] at ho; simp [finishOutcome] at ho
    · right
      obtain ⟨h1, h2, h3, h4, h5, h6, h7⟩ := h
      refine ⟨channel, message, [Effect.newPool, Effect.runWithAuth token] ++ pre,
        h1, h2, ?_, ?_, ?_, ?_, ?_⟩
      · intro e he
        simp only [List.mem_append, List.mem_cons, List.mem_singleton, List.not_mem_nil,
          or_false] at he
        rcases he with (rfl | rfl) | he
        · rfl
        · rfl
        · exact h3 e he
      · intro e he
        simp only [List.mem_singleton] at he
        subst he; rfl
      · rw [hlog, h5]; simp
      · rw [hdb, h6]
      · rw [hout, h7]; rfl

theorem selectClient_cases_close (d : Deps) (cfg : Config) (w : World)
    (p : UploadsUploadParams) (channelId : Int) (db : List Upload) :
    Stopped db (selectClient d cfg w p channelId db) ∨
    ∃ channel message pre, Reached d w p db finishOutcome
      (selectClient d cfg w p channelId db) channelId channel message pre
      [Effect.poolClose] := by
  unfold selectClient
  split
  · left; simp [Stopped, Effect.isStore]
  · split
    · split
      · left; simp [Stopped, Effect.isStore]
      · rcases runUpload_cases_close d cfg w p channelId "" db with
          h | ⟨channel, message, pre, h⟩
        · left; exact h.prepend_calls _ (by simp [Effect.isStore])
        · right; exact ⟨channel, message, _, h.prepend_effects _ (by simp [Effect.isStore])⟩
    · split
      · left; simp [Stopped, Effect.isStore]
      · rcases runUpload_cases_close d cfg w p channelId w.workerNext.1 db with
          h | ⟨channel, message, pre, h⟩
        · left; exact h.prepend_calls _ (by simp [Effect.isStore])
        · right; exact ⟨channel, message, _, h.prepend_effects _ (by simp [Effect.isStore])⟩

/-- Every run of `UploadsUpload` that reaches the insert makes, after the calls of
`persistAndVerify`, only the call that closes the pool. -/
theorem UploadsUpload_cases_close (d : Deps) (cfg : Config) (w : World)
    (p : UploadsUploadParams) (db : List Upload) :
    Stopped db (UploadsUpload d cfg w p db) ∨
    ∃ channelId channel message pre, Reached d w p db finishOutcome
      (UploadsUpload d cfg w p db) channelId channel message pre [Effect.poolClose] := by
  unfold UploadsUpload
  split
  · left; simp [Stopped]
  · split
    · split
      · left; simp [Stopped, Effect.isStore]
      · rename_i channelId _
        rcases selectClient_cases_close d cfg w p channelId db with
          h | ⟨channel, message, pre, h⟩
        · left; exact h.prepend_calls _ (by simp [Effect.isStore])
        · right
          exact ⟨channelId, channel, message, _, h.prepend_effects _ (by simp [Effect.isStore])⟩
    · rcases selectClient_cases_close d cfg w p p.channelId db with
        h | ⟨channel, message, pre, h⟩
      · left; exact h
      · right; exact ⟨p.channelId, channel, message, pre, h⟩

/-- After a run whose last calls are a delete request that succeeds and the closing of the
pool, the transport holds none of the messages that the request names. -/
theorem transportAfter_delete_close (w : World) (before : List (Int × Int))
    (pre mid : List Effect) (channel : InputChannel) (m : Int)
    (hdel : w.deleteMessages = none) :
    (channel.channelID, m) ∉ transportAfter w before
      (pre ++ (mid ++ [Effect.channelsDeleteMessages channel [m]]) ++ [Effect.poolClose]) := by
  simp [transportAfter, List.foldl_append, transportStep, hdel]

theorem base64URLEncode_ne_empty (bytes : List Nat) (h : bytes ≠ []) :
    base64URLEncode bytes ≠ "" := by
  intro hb
  have hd : (base64URLEncode bytes).data = [] := by rw [hb]
  match bytes, h with
  | [a], _ => simp [base64URLEncode, base64URLGroups] at hd
  | [a, b], _ => simp [base64URLEncode, base64URLGroups] at hd
  | a :: b :: c :: rest, _ => simp [base64URLEncode, base64URLGroups] at hd

/-- The salt that `generateRandomSalt` returns is never empty. -/
theorem generateRandomSalt_ne_empty (d : Deps) (w : World) :
    (generateRandomSalt d w).1 ≠ "" := by
  have hlen := d.sha256Sum_length w.randRead
  apply base64URLEncode_ne_empty
  intro h
  rw [h] at hlen
  simp at hlen

/-! ## The claims -/

/-- C1, amended. When a run of `UploadsUpload` reached the insert with record `record` and
the insert fails with error `e`: the send produced a message with a non-zero id, which is
the part id of the record; a delete request for exactly that message id on the resolved
channel is in the log, and it is the only delete request; the store is unchanged; no
verification fetch is made; the call fails with the response that `uploadErrorResponse`
makes of the body error `database insert failed: e`; the body error wraps `e`; and the
error returned to the caller wraps `e` whenever its code is 500. -/
theorem UploadsUpload_insert_failure (d : Deps) (cfg : Config) (w : World)
    (p : UploadsUploadParams) (db : List Upload) (record : Upload) (e : GoError)
    (hreach : Effect.dbCreate record ∈ (UploadsUpload d cfg w p db).log)
    (hfail : w.dbCreate = some e) :
    (∃ updates message, w.sendMedia = .ok (.updates updates) ∧
      extractMessage updates = .ok message ∧ record.partId = message.id ∧ message.id ≠ 0) ∧
    (∃ channel, w.channelById = .ok channel ∧
      Effect.channelsDeleteMessages channel [record.partId] ∈ (UploadsUpload d cfg w p db).log ∧
      ∀ c ids, Effect.channelsDeleteMessages c ids ∈ (UploadsUpload d cfg w p db).log →
        c = channel ∧ ids = [record.partId]) ∧
    (UploadsUpload d cfg w p db).db = db ∧
    (∀ c ids, Effect.channelsGetMessages c ids ∉ (UploadsUpload d cfg w p db).log) ∧
    (UploadsUpload d cfg w p db).outcome =
      .err (uploadErrorResponse (fmtErrorfW "database insert failed: " e)) ∧
    errorsIs (fmtErrorfW "database insert failed: " e) e = true ∧
    ((uploadErrorResponse (fmtErrorfW "database insert failed: " e)).code = some 500 →
      errorsIs (uploadErrorResponse (fmtErrorfW "database insert failed: " e)) e = true) := by
  rcases UploadsUpload_cases d cfg w p db with ⟨h1, _, _⟩ | ⟨channelId, channel, message, pre, post, h⟩
  · have := h1 _ hreach
    simp [Effect.isStore] at this
  · have hmem := h.mem_log_iff
    obtain ⟨hch, ⟨updates, hsend, hmsg⟩, _, _, _, hdb, hout⟩ := h
    have hrun := persistAndVerify_insert_failed d w p channelId channel (saltOf d w p)
      (transmittedSize d p) message db e hfail
    rw [hrun] at hmem hdb hout
    have hrec := (hmem (Effect.dbCreate record) rfl).1 hreach
    simp only [List.mem_cons, Effect.dbCreate.injEq, reduceCtorEq, List.mem_singleton,
      List.not_mem_nil, or_false] at hrec
    have hid : record.partId = message.id := by rw [hrec]; rfl
    refine ⟨⟨updates, message, hsend, hmsg, hid, extractMessage_ok_id hmsg⟩, ⟨channel, hch, ?_, ?_⟩,
      hdb, ?_, ?_, ?_, ?_⟩
    · rw [hmem (Effect.channelsDeleteMessages channel [record.partId]) rfl, hid]; simp
    · intro c ids hc
      rw [hmem (Effect.channelsDeleteMessages c ids) rfl] at hc
      simp only [List.mem_cons, reduceCtorEq, Effect.channelsDeleteMessages.injEq,
        List.mem_singleton, List.not_mem_nil, or_false, false_or] at hc
      rw [hid]; exact hc
    · intro c ids hc
      rw [hmem (Effect.channelsGetMessages c ids) rfl] at hc
      simp at hc
    · rw [hout]; rfl
    · simp [errorsIs, fmtErrorfW, GoError.chain, GoError.self_mem_chain]
    · intro hcode
      unfold uploadErrorResponse at hcode ⊢
      split_ifs at hcode ⊢ <;> simp [GoError.code] at hcode
      simp [errorsIs, fmtErrorfW, GoError.chain, GoError.self_mem_chain]

/-- Witness of C1, amended: a run whose insert fails with a duplicate-key error. -/
theorem UploadsUpload_insert_failure_witness :
    Effect.dbCreate exampleRecord ∈
      (UploadsUpload exampleDeps exampleConfig insertFailsWorld exampleParams []).log ∧
    insertFailsWorld.dbCreate = some (.new "duplicate key") ∧
    (UploadsUpload exampleDeps exampleConfig insertFailsWorld exampleParams []).db = [] ∧
    (UploadsUpload exampleDeps exampleConfig insertFailsWorld exampleParams []).outcome =
      .err (uploadErrorResponse (fmtErrorfW "database insert failed: " (.new "duplicate key"))) :=
  have h := UploadsUpload_insert_failure exampleDeps exampleConfig insertFailsWorld
    exampleParams [] exampleRecord (.new "duplicate key") (by decide) rfl
  ⟨by decide, rfl, h.2.2.1, h.2.2.2.2.1⟩

/-- C1 as stated fails: when the insert fails with `context.DeadlineExceeded`, the call
returns the 408 timeout response, whose error is a fresh one that does not wrap the insert
error. -/
theorem UploadsUpload_insert_timeout_not_wrapped :
    Effect.dbCreate exampleRecord ∈
      (UploadsUpload exampleDeps exampleConfig insertTimesOutWorld exampleParams []).log ∧
    insertTimesOutWorld.dbCreate = some .deadlineExceeded ∧
    (UploadsUpload exampleDeps exampleConfig insertTimesOutWorld exampleParams []).outcome =
      .err (.apiError (.new "upload timeout - please retry with smaller chunk size") 408) ∧
    errorsIs (.apiError (.new "upload timeout - please retry with smaller chunk size") 408)
      .deadlineExceeded = false := by
  decide

/-- C2, amended. When a run of `UploadsUpload` inserted its record and then returns an
error: the error is the 500 response wrapping `ErrUploadFailed`; the record stays in the
store; the verification fetch for the message id was made on the resolved channel; and a
delete request for that message id on the resolved channel is in the log exactly when the
fetch returned a channel-messages list whose first message carries a document of another
size than the record; no other delete request is made. -/
theorem UploadsUpload_verification_failure (d : Deps) (cfg : Config) (w : World)
    (p : UploadsUploadParams) (db : List Upload) (record : Upload) (e : GoError)
    (hreach : Effect.dbCreate record ∈ (UploadsUpload d cfg w p db).log)
    (hins : w.dbCreate = none)
    (hfail : (UploadsUpload d cfg w p db).outcome = .err e) :
    e = .apiError (.wrap "upload failed: upload failed" .uploadFailed) 500 ∧
    errorsIs e .uploadFailed = true ∧
    record.size = transmittedSize d p ∧
    (UploadsUpload d cfg w p db).db = db ++ [{ record with createdAt := w.now }] ∧
    ∃ channel, w.channelById = .ok channel ∧
      Effect.channelsGetMessages channel [record.partId] ∈ (UploadsUpload d cfg w p db).log ∧
      (Effect.channelsDeleteMessages channel [record.partId] ∈ (UploadsUpload d cfg w p db).log ↔
        ∃ first rest doc,
          w.getMessages = .ok (some (.messagesChannelMessages (first :: rest))) ∧
          msgDocument first = .ret (some doc) ∧ doc.size ≠ record.size) ∧
      (∀ c ids, Effect.channelsDeleteMessages c ids ∈ (UploadsUpload d cfg w p db).log →
        c = channel ∧ ids = [record.partId]) := by
  rcases UploadsUpload_cases d cfg w p db with
    ⟨h1, _, _⟩ | ⟨channelId, channel, message, pre, post, h⟩
  · have := h1 _ hreach
    simp [Effect.isStore] at this
  · have hmem := h.mem_log_iff
    obtain ⟨hch, _, _, _, _, hdb, hout⟩ := h
    have hrec := (hmem (Effect.dbCreate record) rfl).1 hreach
    have hE : uploadErrorResponse .uploadFailed =
        .apiError (.wrap "upload failed: upload failed" .uploadFailed) 500 :=
      uploadErrorResponse_uploadFailed
    by_cases hdocs : ∃ first rest doc,
        w.getMessages = .ok (some (.messagesChannelMessages (first :: rest))) ∧
        msgDocument first = .ret (some doc)
    · obtain ⟨first, rest, doc, hresp, hdoc⟩ := hdocs
      by_cases hsize : doc.size = transmittedSize d p
      · have hrun := persistAndVerify_match d w p channelId channel (saltOf d w p)
          (transmittedSize d p) message db first rest doc hins hresp hdoc hsize
        rw [hrun, hfail] at hout
        simp [finishOutcome] at hout
      · have hrun := persistAndVerify_mismatch d w p channelId channel (saltOf d w p)
          (transmittedSize d p) message db first rest doc hins hresp hdoc hsize
        rw [hrun] at hmem hdb hout hrec
        simp only [List.mem_cons, Effect.dbCreate.injEq, reduceCtorEq, List.mem_singleton,
          List.not_mem_nil, or_false] at hrec
        rw [hfail] at hout
        simp only [finishOutcome, Outcome.err.injEq] at hout
        subst hrec
        refine ⟨by rw [hout, hE], by rw [hout, hE]; decide, rfl, hdb, channel, hch, ?_, ?_, ?_⟩
        · rw [hmem (Effect.channelsGetMessages channel _) rfl]
          simp [partUploadOf]
        · rw [hmem (Effect.channelsDeleteMessages channel _) rfl]
          constructor
          · intro _
            exact ⟨first, rest, doc, hresp, hdoc, hsize⟩
          · intro _
            simp [partUploadOf]
        · intro c ids hc
          rw [hmem (Effect.channelsDeleteMessages c ids) rfl] at hc
          simpa [partUploadOf] using hc
    · obtain ⟨ho, hlog, hdb2⟩ := persistAndVerify_no_document d w p channelId channel
        (saltOf d w p) (transmittedSize d p) message db hins hdocs
      rw [hlog] at hmem hrec
      rw [hdb2] at hdb
      simp only [List.mem_cons, Effect.dbCreate.injEq, reduceCtorEq, List.mem_singleton,
        List.not_mem_nil, or_false] at hrec
      rw [hfail] at hout
      have hout2 : e = uploadErrorResponse .uploadFailed := by
        rcases ho with ho | ho
        · rw [ho] at hout
          simpa [finishOutcome] using hout
        · rw [ho] at hout
          simp [finishOutcome] at hout
      subst hrec
      refine ⟨by rw [hout2, hE], by rw [hout2, hE]; decide, rfl, hdb, channel, hch, ?_, ?_, ?_⟩
      · rw [hmem (Effect.channelsGetMessages channel _) rfl]
        simp [partUploadOf]
      · rw [hmem (Effect.channelsDeleteMessages channel _) rfl]
        constructor
        · intro hc
          simp at hc
        · rintro ⟨first, rest, doc, hresp, hdoc, _⟩
          exact absurd ⟨first, rest, doc, hresp, hdoc⟩ hdocs
      · intro c ids hc
        rw [hmem (Effect.channelsDeleteMessages c ids) rfl] at hc
        simp at hc

/-- Witness of C2, amended: a run whose fetched document is one byte short. -/
theorem UploadsUpload_verification_failure_witness :
    Effect.dbCreate exampleRecord ∈
      (UploadsUpload exampleDeps exampleConfig sizeMismatchWorld exampleParams []).log ∧
    sizeMismatchWorld.dbCreate = none ∧
    (UploadsUpload exampleDeps exampleConfig sizeMismatchWorld exampleParams []).outcome =
      .err (.apiError (.wrap "upload failed: upload failed" .uploadFailed) 500) ∧
    (UploadsUpload exampleDeps exampleConfig sizeMismatchWorld exampleParams []).db =
      [] ++ [{ exampleRecord with createdAt := sizeMismatchWorld.now }] :=
  have h := UploadsUpload_verification_failure exampleDeps exampleConfig sizeMismatchWorld
    exampleParams [] exampleRecord
    (.apiError (.wrap "upload failed: upload failed" .uploadFailed) 500)
    (by decide) rfl (by decide)
  ⟨by decide, rfl, by decide, h.2.2.2.1⟩

/-- C2 as stated fails: when the verification fetch returns an error after the record was
inserted, the call fails with the 500 response wrapping `ErrUploadFailed`, but the log
holds no delete request. -/
theorem UploadsUpload_fetch_failure_no_delete :
    Effect.dbCreate exampleRecord ∈
      (UploadsUpload exampleDeps exampleConfig fetchFailsWorld exampleParams []).log ∧
    fetchFailsWorld.dbCreate = none ∧
    fetchFailsWorld.getMessages = .error (.new "rpc error") ∧
    (UploadsUpload exampleDeps exampleConfig fetchFailsWorld exampleParams []).outcome =
      .err (.apiError (.wrap "upload failed: upload failed" .uploadFailed) 500) ∧
    (UploadsUpload exampleDeps exampleConfig fetchFailsWorld exampleParams []).log =
      [Effect.getBotsToken 1 100, Effect.authClient, Effect.newPool, Effect.runWithAuth "",
       Effect.getChannelById 100, Effect.poolDefault, Effect.upload "part-1" 1048576,
       Effect.sendMedia ⟨100, 5⟩ "part-1", Effect.dbCreate exampleRecord,
       Effect.channelsGetMessages ⟨100, 5⟩ [7], Effect.poolClose] ∧
    ∀ c ids, Effect.channelsDeleteMessages c ids ∉
      (UploadsUpload exampleDeps exampleConfig fetchFailsWorld exampleParams []).log := by
  have hlog : (UploadsUpload exampleDeps exampleConfig fetchFailsWorld exampleParams []).log =
      [Effect.getBotsToken 1 100, Effect.authClient, Effect.newPool, Effect.runWithAuth "",
       Effect.getChannelById 100, Effect.poolDefault, Effect.upload "part-1" 1048576,
       Effect.sendMedia ⟨100, 5⟩ "part-1", Effect.dbCreate exampleRecord,
       Effect.channelsGetMessages ⟨100, 5⟩ [7], Effect.poolClose] := by decide
  refine ⟨by decide, rfl, rfl, by decide, hlog, ?_⟩
  intro c ids hc
  rw [hlog] at hc
  simp at hc

/-- C3, amended. When the verification fetch of a run of `UploadsUpload` was made and
returns a channel-messages list whose first message carries a document of a size other
than the transmitted size (the content length, or its encrypted size for an encrypted
request): the fetch was for the id of the sent message on the resolved channel, a delete
request for exactly that id on that channel is in the log and is the only delete request,
the call returns the 500 response whose cause is `ErrUploadFailed`, never a success, and
when the delete request succeeds the transport holds no message with that id in the
channel afterwards, whatever it held before the run. -/
theorem UploadsUpload_size_mismatch (d : Deps) (cfg : Config) (w : World)
    (p : UploadsUploadParams) (db : List Upload) (channel : InputChannel) (ids : List Int)
    (first : MessageClass) (rest : List MessageClass) (doc : Document)
    (hfetch : Effect.channelsGetMessages channel ids ∈ (UploadsUpload d cfg w p db).log)
    (hresp : w.getMessages = .ok (some (.messagesChannelMessages (first :: rest))))
    (hdoc : msgDocument first = .ret (some doc))
    (hsize : doc.size ≠
      (if p.encrypted = true then d.EncryptedSize p.contentLength else p.contentLength)) :
    ∃ updates message, w.sendMedia = .ok (.updates updates) ∧
      extractMessage updates = .ok message ∧ ids = [message.id] ∧
      w.channelById = .ok channel ∧
      Effect.channelsDeleteMessages channel [message.id] ∈ (UploadsUpload d cfg w p db).log ∧
      (∀ c ids, Effect.channelsDeleteMessages c ids ∈ (UploadsUpload d cfg w p db).log →
        c = channel ∧ ids = [message.id]) ∧
      (UploadsUpload d cfg w p db).outcome =
        .err (.apiError (.wrap "upload failed: upload failed" .uploadFailed) 500) ∧
      errorsIs (.apiError (.wrap "upload failed: upload failed" .uploadFailed) 500)
        .uploadFailed = true ∧
      (∀ out, (UploadsUpload d cfg w p db).outcome ≠ .ok out) ∧
      (w.deleteMessages = none → ∀ before,
        (channel.channelID, message.id) ∉
          transportAfter w before (UploadsUpload d cfg w p db).log) := by
  rcases UploadsUpload_cases_close d cfg w p db with
    ⟨h1, _, _⟩ | ⟨channelId, channel0, message, pre, h⟩
  · have := h1 _ hfetch
    simp [Effect.isStore] at this
  · have hmem := h.mem_log_iff
    obtain ⟨hch, ⟨updates, hsend, hmsg⟩, _, _, hlog, hdb, hout⟩ := h
    have hfetch2 := (hmem (Effect.channelsGetMessages channel ids) rfl).1 hfetch
    cases hins : w.dbCreate with
    | some e =>
      rw [persistAndVerify_insert_failed d w p channelId channel0 (saltOf d w p)
        (transmittedSize d p) message db e hins] at hfetch2
      simp at hfetch2
    | none =>
      have hrun := persistAndVerify_mismatch d w p channelId channel0 (saltOf d w p)
        (transmittedSize d p) message db first rest doc hins hresp hdoc hsize
      rw [hrun] at hmem hout hfetch2 hlog
      simp only [List.mem_cons, reduceCtorEq, Effect.channelsGetMessages.injEq,
        List.mem_singleton, List.not_mem_nil, or_false, false_or] at hfetch2
      obtain ⟨rfl, rfl⟩ := hfetch2
      have hout2 : (UploadsUpload d cfg w p db).outcome =
          .err (.apiError (.wrap "upload failed: upload failed" .uploadFailed) 500) := by
        rw [hout, ← uploadErrorResponse_uploadFailed]; rfl
      refine ⟨updates, message, hsend, hmsg, rfl, hch, ?_, ?_, hout2, by decide, ?_, ?_⟩
      · rw [hmem (Effect.channelsDeleteMessages channel _) rfl]
        simp
      · intro c ids hc
        rw [hmem (Effect.channelsDeleteMessages c ids) rfl] at hc
        simpa using hc
      · intro out ho
        rw [hout2] at ho
        simp at ho
      · intro hdel before
        rw [hlog]
        exact transportAfter_delete_close w before pre
          [Effect.dbCreate (partUploadOf w p channelId (saltOf d w p) (transmittedSize d p)
            message), Effect.channelsGetMessages channel [message.id]] channel message.id hdel

/-- Witness of C3, amended: a run whose fetched document is one byte short and whose delete
request succeeds; the transport, empty before the run, holds no message afterwards. -/
theorem UploadsUpload_size_mismatch_witness :
    Effect.channelsGetMessages ⟨100, 5⟩ [7] ∈
      (UploadsUpload exampleDeps exampleConfig sizeMismatchWorld exampleParams []).log ∧
    Effect.channelsDeleteMessages ⟨100, 5⟩ [7] ∈
      (UploadsUpload exampleDeps exampleConfig sizeMismatchWorld exampleParams []).log ∧
    (UploadsUpload exampleDeps exampleConfig sizeMismatchWorld exampleParams []).outcome =
      .err (.apiError (.wrap "upload failed: upload failed" .uploadFailed) 500) ∧
    transportAfter sizeMismatchWorld []
      (UploadsUpload exampleDeps exampleConfig sizeMismatchWorld exampleParams []).log = [] := by
  obtain ⟨updates, message, hsend, hmsg, hids, _, hdel, _, hout, _⟩ :=
    UploadsUpload_size_mismatch exampleDeps exampleConfig sizeMismatchWorld exampleParams []
      ⟨100, 5⟩ [7] (documentMessage 7 1048575) [] ⟨1, 1048575⟩ (by decide) rfl (by decide)
      (by decide)
  have h7 : message.id = 7 := by
    have := List.head_eq_of_cons_eq hids
    exact this.symm
  rw [h7] at hdel
  exact ⟨by decide, hdel, hout, by decide⟩

/-- C3 as stated fails: when the fetched document is one byte short and the delete request
fails, the request for message 7 on the resolved channel is in the log and the call
returns the 500 response wrapping `ErrUploadFailed`, but the result of the request is
discarded and the transport still holds message 7 in channel 100 after the run. -/
theorem UploadsUpload_size_mismatch_delete_fails :
    Effect.channelsGetMessages ⟨100, 5⟩ [7] ∈
      (UploadsUpload exampleDeps exampleConfig deleteFailsWorld exampleParams []).log ∧
    deleteFailsWorld.getMessages =
      .ok (some (.messagesChannelMessages [documentMessage 7 1048575])) ∧
    deleteFailsWorld.deleteMessages = some (.new "MESSAGE_DELETE_FORBIDDEN") ∧
    Effect.channelsDeleteMessages ⟨100, 5⟩ [7] ∈
      (UploadsUpload exampleDeps exampleConfig deleteFailsWorld exampleParams []).log ∧
    (UploadsUpload exampleDeps exampleConfig deleteFailsWorld exampleParams []).outcome =
      .err (.apiError (.wrap "upload failed: upload failed" .uploadFailed) 500) ∧
    transportAfter deleteFailsWorld []
      (UploadsUpload exampleDeps exampleConfig deleteFailsWorld exampleParams []).log =
        [(100, 7)] :=
  ⟨by decide, rfl, rfl, by decide, by decide, by decide⟩

/-- C4. When a run of `UploadsUpload` returns a success response: the insert succeeded,
the verification fetch for the id of the sent message was made on the resolved channel
and returned a non-empty channel-messages list, its first message is a regular message
whose media is a document attachment with a non-empty document, the size of that
document equals the transmitted size, and the log holds no delete request. -/
theorem UploadsUpload_success_verified (d : Deps) (cfg : Config) (w : World)
    (p : UploadsUploadParams) (db : List Upload) (out : UploadPart)
    (hok : (UploadsUpload d cfg w p db).outcome = .ok out) :
    w.dbCreate = none ∧
    ∃ channel updates message first rest msg doc,
      w.channelById = .ok channel ∧
      w.sendMedia = .ok (.updates updates) ∧ extractMessage updates = .ok message ∧
      Effect.channelsGetMessages channel [message.id] ∈ (UploadsUpload d cfg w p db).log ∧
      w.getMessages = .ok (some (.messagesChannelMessages (first :: rest))) ∧
      first = .message msg ∧
      msg.media = some (.messageMediaDocument (some (.document doc))) ∧
      doc.size =
        (if p.encrypted = true then d.EncryptedSize p.contentLength else p.contentLength) ∧
      ∀ c ids, Effect.channelsDeleteMessages c ids ∉ (UploadsUpload d cfg w p db).log := by
  rcases UploadsUpload_cases d cfg w p db with
    ⟨_, h2, _⟩ | ⟨channelId, channel, message, pre, post, h⟩
  · exact absurd hok (h2 out)
  · have hmem := h.mem_log_iff
    obtain ⟨hch, ⟨updates, hsend, hmsg⟩, _, _, _, hdb, hout⟩ := h
    rw [hok] at hout
    cases hins : w.dbCreate with
    | some e =>
      rw [persistAndVerify_insert_failed d w p channelId channel (saltOf d w p)
        (transmittedSize d p) message db e hins] at hout
      simp [finishOutcome] at hout
    | none =>
      refine ⟨rfl, ?_⟩
      by_cases hdocs : ∃ first rest doc,
          w.getMessages = .ok (some (.messagesChannelMessages (first :: rest))) ∧
          msgDocument first = .ret (some doc)
      · obtain ⟨first, rest, doc, hresp, hdoc⟩ := hdocs
        by_cases hsize : doc.size = transmittedSize d p
        · have hrun := persistAndVerify_match d w p channelId channel (saltOf d w p)
            (transmittedSize d p) message db first rest doc hins hresp hdoc hsize
          rw [hrun] at hmem
          obtain ⟨msg, hfirst, hmedia⟩ := (msgDocument_eq_some first doc).1 hdoc
          refine ⟨channel, updates, message, first, rest, msg, doc, hch, hsend, hmsg, ?_, hresp,
            hfirst, hmedia, hsize, ?_⟩
          · rw [hmem (Effect.channelsGetMessages channel _) rfl]
            simp
          · intro c ids hc
            rw [hmem (Effect.channelsDeleteMessages c ids) rfl] at hc
            simp at hc
        · have hrun := persistAndVerify_mismatch d w p channelId channel (saltOf d w p)
            (transmittedSize d p) message db first rest doc hins hresp hdoc hsize
          rw [hrun] at hout
          simp [finishOutcome] at hout
      · obtain ⟨ho, _, _⟩ := persistAndVerify_no_document d w p channelId channel
          (saltOf d w p) (transmittedSize d p) message db hins hdocs
        rcases ho with ho | ho <;>
        · rw [ho] at hout
          simp [finishOutcome] at hout

/-- Witness of C4: the successful run of the example world. -/
theorem UploadsUpload_success_verified_witness :
    (UploadsUpload exampleDeps exampleConfig (exampleWorld 1048576) exampleParams []).outcome =
      .ok ⟨"part-1", 7, 100, 1, 1048576, false, ⟨"", true⟩⟩ ∧
    (exampleWorld 1048576).dbCreate = none ∧
    ∀ c ids, Effect.channelsDeleteMessages c ids ∉
      (UploadsUpload exampleDeps exampleConfig (exampleWorld 1048576) exampleParams []).log :=
  have h := UploadsUpload_success_verified exampleDeps exampleConfig (exampleWorld 1048576)
    exampleParams [] ⟨"part-1", 7, 100, 1, 1048576, false, ⟨"", true⟩⟩ (by decide)
  ⟨by decide, h.1, by
    obtain ⟨_, _, _, _, _, _, _, _, _, _, _, _, _, _, _, hno⟩ := h.2
    exact hno⟩

/-- C5. For every successful call of `UploadsUpload`, exactly one record was appended to
the store, the one handed to the insert; its size is the size transmitted (the content
length, or its encrypted size for an encrypted request), its part id is the id of the
sent message, its encrypted flag is the flag of the request, and its salt is non-empty
exactly when the request is encrypted. -/
theorem UploadsUpload_success_chunk_record (d : Deps) (cfg : Config) (w : World)
    (p : UploadsUploadParams) (db : List Upload) (out : UploadPart)
    (hok : (UploadsUpload d cfg w p db).outcome = .ok out) :
    ∃ record updates message,
      w.sendMedia = .ok (.updates updates) ∧ extractMessage updates = .ok message ∧
      (UploadsUpload d cfg w p db).db = db ++ [record] ∧
      (∀ r, Effect.dbCreate r ∈ (UploadsUpload d cfg w p db).log ↔
        r = { record with createdAt := 0 }) ∧
      record.size =
        (if p.encrypted = true then d.EncryptedSize p.contentLength else p.contentLength) ∧
      record.partId = message.id ∧
      record.encrypted = p.encrypted ∧
      (record.salt ≠ "" ↔ p.encrypted = true) := by
  obtain ⟨channelId, message, ⟨updates, hsend, hmsg⟩, hdb, hlog, _⟩ :=
    UploadsUpload_success_record d cfg w p db out hok
  refine ⟨_, updates, message, hsend, hmsg, hdb, hlog, rfl, rfl, rfl, ?_⟩
  show saltOf d w p ≠ "" ↔ p.encrypted = true
  unfold saltOf
  by_cases henc : p.encrypted = true
  · simp only [henc, if_true, iff_true]
    exact generateRandomSalt_ne_empty d w
  · simp [henc]

/-- Witness of C5: the encrypted upload of 1048576 bytes under a master key stores one
record of 1048864 bytes with a salt of 44 characters. -/
theorem UploadsUpload_success_chunk_record_witness :
    (UploadsUpload exampleDeps keyedConfig encryptedWorld encryptedParams []).outcome =
      .ok ⟨"part-1", 7, 100, 1, 1048864, true,
        ⟨"AAAAAAAAAAAAAAAAAAAAAAAAAAAAAAAAAAAAAAAAAAA=", true⟩⟩ ∧
    (UploadsUpload exampleDeps keyedConfig encryptedWorld encryptedParams []).db =
      [encryptedRecord] ∧
    ∃ record, (UploadsUpload exampleDeps keyedConfig encryptedWorld encryptedParams []).db =
        [] ++ [record] ∧ (record.salt ≠ "" ↔ encryptedParams.encrypted = true) := by
  obtain ⟨record, _, _, _, _, hdb, _, _, _, _, hsalt⟩ :=
    UploadsUpload_success_chunk_record exampleDeps keyedConfig encryptedWorld encryptedParams []
      ⟨"part-1", 7, 100, 1, 1048864, true,
        ⟨"AAAAAAAAAAAAAAAAAAAAAAAAAAAAAAAAAAAAAAAAAAA=", true⟩⟩ (by decide)
  exact ⟨by decide, by decide, record, hdb, hsalt⟩

/-- C6. A request with `encrypted = true` under an empty master key fails with the 400
validation error before anything else: the log is empty and the store unchanged. For
every other request the validation does not reject: the run goes on to its first
lookup, the default channel when the request names no channel and the bot tokens
otherwise. -/
theorem UploadsUpload_encryption_validation (d : Deps) (cfg : Config) (w : World)
    (p : UploadsUploadParams) (db : List Upload) :
    (p.encrypted = true ∧ cfg.encryptionKey = "" →
      (UploadsUpload d cfg w p db).outcome =
        .err (.apiError (.new "encryption is not enabled") 400) ∧
      (UploadsUpload d cfg w p db).log = [] ∧
      (UploadsUpload d cfg w p db).db = db) ∧
    (¬ (p.encrypted = true ∧ cfg.encryptionKey = "") →
      (UploadsUpload d cfg w p db).log.head? =
        some (if p.channelId = 0 then Effect.getDefaultChannel w.userId
          else Effect.getBotsToken w.userId p.channelId)) := by
  constructor
  · intro h
    simp [UploadsUpload, h, encryptionNotEnabled]
  · intro h
    unfold UploadsUpload
    rw [if_neg h]
    split
    · split
      · simp
      · simp [Run.prepend]
    · unfold selectClient
      split
      · simp
      · split
        · split <;> simp [Run.prepend]
        · split <;> simp [Run.prepend]

/-- Witness of C6: the encrypted example request, without and with a master key. -/
theorem UploadsUpload_encryption_validation_witness :
    (encryptedParams.encrypted = true ∧ exampleConfig.encryptionKey = "") ∧
    (UploadsUpload exampleDeps exampleConfig (exampleWorld 1048864) encryptedParams []).log = [] ∧
    ¬ (encryptedParams.encrypted = true ∧ keyedConfig.encryptionKey = "") ∧
    (UploadsUpload exampleDeps keyedConfig (exampleWorld 1048864) encryptedParams []).log.head? =
      some (Effect.getBotsToken 1 100) :=
  ⟨by decide,
    ((UploadsUpload_encryption_validation exampleDeps exampleConfig (exampleWorld 1048864)
      encryptedParams []).1 (by decide)).2.1,
    by decide,
    (UploadsUpload_encryption_validation exampleDeps keyedConfig (exampleWorld 1048864)
      encryptedParams []).2 (by decide)⟩

/-- C7, amended. For every list of updates, `extractMessage` returns a message exactly
when the first new-channel-message update of the list carries that message as a regular
message with a non-zero id, and fails with the no-valid-message error exactly when the
list has no new-channel-message update or the first one carries a regular message with
id zero; it returns no other error. -/
theorem extractMessage_first_channel_message (updates : List UpdateClass) :
    (∀ message, extractMessage updates = .ok message ↔
      firstChannelMessage updates = some (.message message) ∧ message.id ≠ 0) ∧
    (extractMessage updates = .err noValidMessage ↔
      firstChannelMessage updates = none ∨
      ∃ message, firstChannelMessage updates = some (.message message) ∧ message.id = 0) ∧
    (∀ e, extractMessage updates = .err e → e = noValidMessage) := by
  unfold extractMessage
  rw [findChannelMessage_eq]
  cases h : firstChannelMessage updates with
  | none => simp
  | some m =>
    cases m with
    | messageEmpty id => simp
    | messageService id => simp
    | message msg =>
      by_cases hid : msg.id = 0
      · simp [hid]
      · simp [hid]

/-- C7 as stated fails: on a list whose first new-channel-message update has message id
zero and whose second has id 7, the first update with a non-zero id is the second one, yet
`extractMessage` fails with the no-valid-message error. -/
theorem extractMessage_stops_at_first_channel_message :
    firstNonZeroChannelMessage
        [.updateNewChannelMessage (.message ⟨0, none⟩),
         .updateNewChannelMessage (.message ⟨7, none⟩)] = some (.message ⟨7, none⟩) ∧
    extractMessage
        [.updateNewChannelMessage (.message ⟨0, none⟩),
         .updateNewChannelMessage (.message ⟨7, none⟩)] = .err noValidMessage := by
  decide

/-- C8, at a failing input. With retention 10 and current time 1000, the store holds a
record of the session created at time 995, inside the retention window, and one created at
time 0, outside it. `UploadsPartsById` returns both, in the order of their chunk numbers:
the query keeps the records created before `now + retention`. -/
theorem UploadsPartsById_lists_expired (d : Deps) :
    expiredRecord.uploadId = "session" ∧
    withinRetention 1000 exampleConfig.retention freshRecord = true ∧
    withinRetention 1000 exampleConfig.retention expiredRecord = false ∧
    UploadsPartsById d exampleConfig 1000 none [freshRecord, expiredRecord] "session" =
      .ok (d.ToUploadOut [expiredRecord, freshRecord]) := by
  refine ⟨rfl, by decide, by decide, rfl⟩

/-- C9. When a call of `UploadsUpload` runs the upload body and the body returns the error
`e`, the call returns the response `uploadErrorResponse e` and never a success; the
code of that response is 408 exactly when `e` wraps `context.DeadlineExceeded`, otherwise
429 exactly when the text of `e` contains `FLOOD_WAIT`, otherwise 400 exactly when it
contains `FILE_PART_`, otherwise 403 exactly when it contains `CHANNEL_PRIVATE`, and
500 exactly when none of these holds. -/
theorem UploadsUpload_error_classification (d : Deps) (cfg : Config) (w : World)
    (p : UploadsUploadParams) (db : List Upload) (channelId : Int) (token : String)
    (pre : List Effect) (e : GoError)
    (hcall : UploadsUpload d cfg w p db = (runUpload d cfg w p channelId token db).prepend pre)
    (hauth : w.runAuth = none)
    (hbody : (uploadBody d cfg w p channelId db).outcome = .err e) :
    (UploadsUpload d cfg w p db).outcome = .err (uploadErrorResponse e) ∧
    (∀ out, (UploadsUpload d cfg w p db).outcome ≠ .ok out) ∧
    ((uploadErrorResponse e).code = some 408 ↔ errorsIs e .deadlineExceeded = true) ∧
    ((uploadErrorResponse e).code = some 429 ↔
      errorsIs e .deadlineExceeded = false ∧ stringsContains e.Error "FLOOD_WAIT" = true) ∧
    ((uploadErrorResponse e).code = some 400 ↔
      errorsIs e .deadlineExceeded = false ∧ stringsContains e.Error "FLOOD_WAIT" = false ∧
      stringsContains e.Error "FILE_PART_" = true) ∧
    ((uploadErrorResponse e).code = some 403 ↔
      errorsIs e .deadlineExceeded = false ∧ stringsContains e.Error "FLOOD_WAIT" = false ∧
      stringsContains e.Error "FILE_PART_" = false ∧
      stringsContains e.Error "CHANNEL_PRIVATE" = true) ∧
    ((uploadErrorResponse e).code = some 500 ↔
      errorsIs e .deadlineExceeded = false ∧ stringsContains e.Error "FLOOD_WAIT" = false ∧
      stringsContains e.Error "FILE_PART_" = false ∧
      stringsContains e.Error "CHANNEL_PRIVATE" = false) := by
  have hout : (UploadsUpload d cfg w p db).outcome = .err (uploadErrorResponse e) := by
    rw [hcall]
    show (runUpload d cfg w p channelId token db).outcome = _
    rw [(runUpload_eq d cfg w p channelId token db hauth).2.2, hbody]
    rfl
  refine ⟨hout, ?_, ?_⟩
  · intro out ho
    rw [hout] at ho
    simp at ho
  · unfold uploadErrorResponse
    cases errorsIs e .deadlineExceeded <;>
      cases stringsContains e.Error "FLOOD_WAIT" <;>
      cases stringsContains e.Error "FILE_PART_" <;>
      cases stringsContains e.Error "CHANNEL_PRIVATE" <;>
      simp [GoError.code]

/-- Witness of C9: a transfer that fails with a flood-wait error is answered with 429. -/
theorem UploadsUpload_error_classification_witness :
    (uploadBody exampleDeps exampleConfig floodWaitWorld exampleParams 100 []).outcome =
      .err (fmtErrorfW "telegram upload failed: " (.new "rpc error code 420: FLOOD_WAIT (3)")) ∧
    (UploadsUpload exampleDeps exampleConfig floodWaitWorld exampleParams []).outcome =
      .err (.apiError (.new "telegram rate limit exceeded - please wait and retry") 429) :=
  have h := UploadsUpload_error_classification exampleDeps exampleConfig floodWaitWorld
    exampleParams [] 100 "" [Effect.getBotsToken 1 100, Effect.authClient]
    (fmtErrorfW "telegram upload failed: " (.new "rpc error code 420: FLOOD_WAIT (3)"))
    rfl rfl (by decide)
  ⟨by decide, h.1.trans (by decide)⟩

/-- C10, amended. For every successful call of `UploadsUpload` with `encrypted = false`:
the response has the content length as its size and `encrypted = false`; exactly one
record was appended to the store, the one handed to the insert, with that size, no
encryption and an empty salt; chunk number, name, channel id and message id of the
response are those of the record; and the salt field of the response is
`NewOptString` of the empty string. -/
theorem UploadsUpload_unencrypted_response (d : Deps) (cfg : Config) (w : World)
    (p : UploadsUploadParams) (db : List Upload) (out : UploadPart)
    (hok : (UploadsUpload d cfg w p db).outcome = .ok out)
    (henc : p.encrypted = false) :
    out.size = p.contentLength ∧ out.encrypted = false ∧ out.salt = d.NewOptString "" ∧
    ∃ record, (UploadsUpload d cfg w p db).db = db ++ [record] ∧
      Effect.dbCreate { record with createdAt := 0 } ∈ (UploadsUpload d cfg w p db).log ∧
      record.size = p.contentLength ∧ record.encrypted = false ∧ record.salt = "" ∧
      record.partNo = p.partNo ∧ record.name = p.partName ∧
      out.partNo = record.partNo ∧ out.name = record.name ∧
      out.channelId = record.channelId ∧ out.partId = record.partId := by
  obtain ⟨channelId, message, _, hdb, hlog, hout⟩ := UploadsUpload_success_record d cfg w p db out hok
  have hs : saltOf d w p = "" := by simp [saltOf, henc]
  have ht : transmittedSize d p = p.contentLength := by simp [transmittedSize, henc]
  rw [hs, ht] at hdb hlog hout
  subst hout
  refine ⟨rfl, henc, rfl, _, hdb, ?_, rfl, henc, rfl, rfl, rfl, rfl, rfl, rfl, rfl⟩
  rw [hlog]
  rfl

/-- Witness of C10, amended: a content length of 1048576 gives a size of 1048576. -/
theorem UploadsUpload_unencrypted_response_witness :
    (UploadsUpload exampleDeps exampleConfig (exampleWorld 1048576) exampleParams []).outcome =
      .ok ⟨"part-1", 7, 100, 1, 1048576, false, ⟨"", true⟩⟩ ∧
    exampleParams.encrypted = false ∧ exampleParams.contentLength = 1048576 ∧
    (⟨"part-1", 7, 100, 1, 1048576, false, ⟨"", true⟩⟩ : UploadPart).size = 1048576 ∧
    (⟨"part-1", 7, 100, 1, 1048576, false, ⟨"", true⟩⟩ : UploadPart).salt =
      exampleDeps.NewOptString "" :=
  have h := UploadsUpload_unencrypted_response exampleDeps exampleConfig (exampleWorld 1048576)
    exampleParams [] ⟨"part-1", 7, 100, 1, 1048576, false, ⟨"", true⟩⟩ (by decide) rfl
  ⟨by decide, rfl, rfl, h.1, h.2.2.1⟩

/-- C10 as stated fails: with the constructor of the API package, which marks the value
it is given as set, the successful unencrypted upload of 1048576 bytes returns a response
whose salt field is set, holding the empty string. -/
theorem UploadsUpload_unencrypted_salt_set :
    exampleParams.encrypted = false ∧ exampleParams.contentLength = 1048576 ∧
    ∃ out,
      (UploadsUpload exampleDeps exampleConfig (exampleWorld 1048576) exampleParams []).outcome =
        .ok out ∧
      out.size = 1048576 ∧ out.salt.set = true ∧ out.salt.value = "" :=
  ⟨rfl, rfl, ⟨"part-1", 7, 100, 1, 1048576, false, ⟨"", true⟩⟩, by decide, rfl, rfl, rfl⟩

/-! ## Paths: elements, cleaning and resolution -/

theorem pathElements_cons_sep (s : List Char) :
    pathElements (pathSeparator :: s) = [] :: pathElements s := by
  simp [pathElements]

theorem pathElements_cons_other (c : Char) (s : List Char) (hc : c ≠ pathSeparator) :
    ∃ e rest, pathElements s = e :: rest ∧ pathElements (c :: s) = (c :: e) :: rest := by
  have hne : pathElements s ≠ [] := by
    cases s with
    | nil => simp [pathElements]
    | cons c2 s =>
      simp only [pathElements]
      split
      · simp
      · split <;> simp
  cases h : pathElements s with
  | nil => exact absurd h hne
  | cons e rest =>
    refine ⟨e, rest, rfl, ?_⟩
    simp [pathElements, hc, h]

/-- The elements of two paths joined by a separator are the elements of the one followed by
the elements of the other. -/
theorem pathElements_append_sep (a b : List Char) :
    pathElements (a ++ pathSeparator :: b) = pathElements a ++ pathElements b := by
  induction a with
  | nil => simp [pathElements]
  | cons c a ih =>
    by_cases hc : c = pathSeparator
    · subst hc
      rw [List.cons_append, pathElements_cons_sep, pathElements_cons_sep, ih]
      rfl
    · obtain ⟨e, rest, hs, hcs⟩ := pathElements_cons_other c a hc
      obtain ⟨e2, rest2, hs2, hcs2⟩ := pathElements_cons_other c (a ++ pathSeparator :: b) hc
      rw [List.cons_append, hcs2, hcs]
      rw [ih, hs] at hs2
      simp only [List.cons_append, List.cons.injEq] at hs2
      obtain ⟨rfl, rfl⟩ := hs2
      rfl

/-- No element of a path contains a separator. -/
theorem pathElements_no_sep (s : List Char) :
    ∀ e ∈ pathElements s, pathSeparator ∉ e := by
  induction s with
  | nil => simp [pathElements]
  | cons c s ih =>
    by_cases hc : c = pathSeparator
    · subst hc
      rw [pathElements_cons_sep]
      intro e he
      rcases List.mem_cons.1 he with rfl | he
      · simp
      · exact ih e he
    · obtain ⟨e0, rest, hs, hcs⟩ := pathElements_cons_other c s hc
      rw [hcs]
      rw [hs] at ih
      intro e he
      rcases List.mem_cons.1 he with rfl | he
      · intro hmem
        rcases List.mem_cons.1 hmem with h | h
        · exact hc h.symm
        · exact ih e0 (by simp) h
      · exact ih e (List.mem_cons_of_mem _ he)

/-- A path without separator is its own single element. -/
theorem pathElements_of_no_sep (e : List Char) (h : pathSeparator ∉ e) :
    pathElements e = [e] := by
  induction e with
  | nil => rfl
  | cons c e ih =>
    have hc : c ≠ pathSeparator := fun hc => h (by simp [hc])
    have he : pathSeparator ∉ e := fun he => h (List.mem_cons_of_mem _ he)
    obtain ⟨e0, rest, hs, hcs⟩ := pathElements_cons_other c e hc
    rw [hcs]
    rw [ih he] at hs
    simp only [List.cons.injEq] at hs
    obtain ⟨rfl, rfl⟩ := hs
    rfl

/-- Splitting undoes joining: the elements of a joined path are the elements joined. -/
theorem pathElements_joinElements (es : List (List Char)) (hne : es ≠ [])
    (h : ∀ e ∈ es, pathSeparator ∉ e) : pathElements (joinElements es) = es := by
  induction es with
  | nil => exact absurd rfl hne
  | cons e rest ih =>
    cases rest with
    | nil =>
      simp only [joinElements]
      exact pathElements_of_no_sep e (h e (by simp))
    | cons e2 rest2 =>
      simp only [joinElements]
      rw [pathElements_append_sep, pathElements_of_no_sep e (h e (by simp)),
        ih (by simp) (fun x hx => h x (List.mem_cons_of_mem _ hx))]
      rfl

theorem walkElements_append (pos : List (List Char)) (a b : List (List Char)) :
    walkElements pos (a ++ b) = walkElements (walkElements pos a) b := by
  induction a generalizing pos with
  | nil => rfl
  | cons e a ih =>
    simp only [List.cons_append, walkElements]
    split
    · exact ih pos
    · split
      · exact ih _
      · exact ih _

/-- Following elements none of which is `..` never leaves the starting directory. -/
theorem walkElements_suffix (pos : List (List Char)) (es : List (List Char))
    (h : ∀ e ∈ es, e ≠ dotDot) : pos <:+ walkElements pos es := by
  induction es generalizing pos with
  | nil => exact List.suffix_refl pos
  | cons e es ih =>
    have hes : ∀ x ∈ es, x ≠ dotDot := fun x hx => h x (List.mem_cons_of_mem _ hx)
    simp only [walkElements]
    split
    · exact ih pos hes
    · split
      · exact absurd ‹e = dotDot› (h e (by simp))
      · exact (List.suffix_cons e pos).trans (ih (e :: pos) hes)

theorem Cleaned.nil (rooted : Bool) : Cleaned rooted [] := by
  simp [Cleaned]

/-- One turn of the cleaning loop keeps what holds of the elements written. -/
theorem Cleaned.step {rooted : Bool} {out : List (List Char)} (h : Cleaned rooted out)
    (e : List Char) (he : pathSeparator ∉ e) : Cleaned rooted (cleanStep rooted out e) := by
  obtain ⟨h1, h2, h3⟩ := h
  unfold cleanStep
  split
  · exact ⟨h1, h2, h3⟩
  · rename_i hne
    simp only [not_or] at hne
    split
    · rename_i hdd
      cases out with
      | nil =>
        cases rooted with
        | true => simp [Cleaned]
        | false =>
          subst hdd
          simp [Cleaned, dotDot, pathSeparator]
      | cons top below =>
        have hbelow : Cleaned rooted below :=
          ⟨fun x hx => h1 x (List.mem_cons_of_mem _ hx), (List.pairwise_cons.1 h2).2,
            fun hr hm => h3 hr (List.mem_cons_of_mem _ hm)⟩
        by_cases htop : top = dotDot
        · cases rooted with
          | true => simpa [htop] using (⟨h1, h2, h3⟩ : Cleaned true (top :: below))
          | false =>
            simp only [htop, ne_eq, not_true_eq_false, if_false, Bool.false_eq_true]
            refine ⟨?_, ?_, by simp⟩
            · intro x hx
              rcases List.mem_cons.1 hx with rfl | hx
              · exact ⟨hne.1, hne.2, he⟩
              · exact h1 x (htop ▸ hx)
            · refine List.pairwise_cons.2 ⟨?_, htop ▸ h2⟩
              intro b hb _
              rcases List.mem_cons.1 hb with rfl | hb
              · rfl
              · exact (List.pairwise_cons.1 h2).1 b hb htop
        · simpa [htop] using hbelow
    · rename_i hdd
      refine ⟨?_, ?_, ?_⟩
      · intro x hx
        rcases List.mem_cons.1 hx with rfl | hx
        · exact ⟨hne.1, hne.2, he⟩
        · exact h1 x hx
      · exact List.pairwise_cons.2 ⟨fun b _ hb => absurd hb hdd, h2⟩
      · intro hr hm
        rcases List.mem_cons.1 hm with h | h
        · exact hdd h.symm
        · exact h3 hr h

theorem Cleaned.foldl {rooted : Bool} (es : List (List Char)) {out : List (List Char)}
    (h : Cleaned rooted out) (hes : ∀ e ∈ es, pathSeparator ∉ e) :
    Cleaned rooted (es.foldl (cleanStep rooted) out) := by
  induction es generalizing out with
  | nil => exact h
  | cons e es ih =>
    exact ih (h.step e (hes e (by simp))) (fun x hx => hes x (List.mem_cons_of_mem _ hx))

/-- One turn of the cleaning loop leads where the element read leads: from the root for a
rooted path, from anywhere otherwise. -/
theorem walkElements_cleanStep {rooted : Bool} {out : List (List Char)}
    (h : Cleaned rooted out) (pos : List (List Char)) (hpos : rooted = true → pos = [])
    (e : List Char) :
    walkElements pos (cleanStep rooted out e).reverse =
      walkElements pos (out.reverse ++ [e]) := by
  obtain ⟨h1, h2, h3⟩ := h
  rw [walkElements_append]
  unfold cleanStep
  split
  · rename_i hskip
    simp [walkElements, hskip]
  · rename_i hne
    split
    · rename_i hdd
      have hw : ∀ q, walkElements q [e] = q.tail := by
        intro q
        simp only [walkElements]
        rw [if_neg hne, if_pos hdd]
      rw [hw]
      cases out with
      | nil =>
        cases rooted with
        | true =>
          rw [hpos rfl]
          rfl
        | false => exact hw pos
      | cons top below =>
        have htopn := h1 top (by simp)
        by_cases htop : top = dotDot
        · cases rooted with
          | true => exact absurd (by simp [htop]) (h3 rfl)
          | false =>
            simp only [htop, ne_eq, not_true_eq_false, if_false, Bool.false_eq_true,
              List.reverse_cons]
            rw [walkElements_append, hw]
        · simp only [ne_eq, htop, not_false_eq_true, if_true, List.reverse_cons]
          rw [walkElements_append]
          simp [walkElements, htopn.1, htopn.2.1, htop]
    · simp only [List.reverse_cons]
      rw [walkElements_append]

theorem walkElements_foldl_cleanStep {rooted : Bool} (es : List (List Char))
    {out : List (List Char)} (h : Cleaned rooted out) (hes : ∀ e ∈ es, pathSeparator ∉ e)
    (pos : List (List Char)) (hpos : rooted = true → pos = []) :
    walkElements pos (es.foldl (cleanStep rooted) out).reverse =
      walkElements pos (out.reverse ++ es) := by
  induction es generalizing out with
  | nil => simp
  | cons e es ih =>
    have hes2 : ∀ x ∈ es, pathSeparator ∉ x := fun x hx => hes x (List.mem_cons_of_mem _ hx)
    rw [List.foldl_cons, ih (h.step e (hes e (by simp))) hes2, walkElements_append,
      walkElements_cleanStep h pos hpos, ← walkElements_append]
    simp

theorem joinElements_cons_cons (c : Char) (e : List Char) (rest : List (List Char)) :
    joinElements ((c :: e) :: rest) = c :: joinElements (e :: rest) := by
  cases rest with
  | nil => rfl
  | cons r rs => rfl

/-- What the elements written by the cleaning loop satisfy, in the order of the path. -/
theorem cleanElements_cleaned (rooted : Bool) (es : List (List Char))
    (hes : ∀ e ∈ es, pathSeparator ∉ e) :
    (∀ e ∈ cleanElements rooted es, e ≠ [] ∧ e ≠ ['.'] ∧ pathSeparator ∉ e) ∧
    List.Pairwise (fun a b => b = dotDot → a = dotDot) (cleanElements rooted es) ∧
    (rooted = true → dotDot ∉ cleanElements rooted es) := by
  obtain ⟨h1, h2, h3⟩ := Cleaned.foldl es (Cleaned.nil rooted) hes
  refine ⟨?_, ?_, ?_⟩
  · intro e he
    exact h1 e (List.mem_reverse.1 he)
  · exact List.pairwise_reverse.2 h2
  · intro hr hm
    exact h3 hr (List.mem_reverse.1 hm)

theorem walkElements_cleanElements (rooted : Bool) (es : List (List Char))
    (hes : ∀ e ∈ es, pathSeparator ∉ e) (pos : List (List Char))
    (hpos : rooted = true → pos = []) :
    walkElements pos (cleanElements rooted es) = walkElements pos es := by
  have := walkElements_foldl_cleanStep es (Cleaned.nil rooted) hes pos hpos
  simpa [cleanElements] using this

/-- The cleaned path: it is not empty, it is rooted exactly when the path is, among its
elements only `..` elements come before a `..`, and it leads where the path leads. -/
theorem filepathClean_spec (path : String) :
    (filepathClean path).data ≠ [] ∧
    ((filepathClean path).data.head? = some pathSeparator ↔
      path.data.head? = some pathSeparator) ∧
    List.Pairwise (fun a b => b = dotDot → a = dotDot)
      (pathElements (filepathClean path).data) ∧
    ∀ pos, (path.data.head? = some pathSeparator → pos = []) →
      walkElements pos (pathElements (filepathClean path).data) =
        walkElements pos (pathElements path.data) := by
  have hdot : pathElements ['.'] = [['.']] := by decide
  by_cases hempty : path = ""
  · subst hempty
    refine ⟨by decide, by decide, by decide, ?_⟩
    intro pos _
    show walkElements pos (pathElements ['.']) = walkElements pos (pathElements [])
    rw [hdot]
    simp [walkElements, pathElements]
  · have hsep := pathElements_no_sep path.data
    cases hr : decide (path.data.head? = some pathSeparator) with
    | true =>
      have hrooted : path.data.head? = some pathSeparator := of_decide_eq_true hr
      obtain ⟨c1, c2, c3⟩ := cleanElements_cleaned true (pathElements path.data) hsep
      have hw := walkElements_cleanElements true (pathElements path.data) hsep [] (fun _ => rfl)
      have hdata : (filepathClean path).data =
          pathSeparator :: joinElements (cleanElements true (pathElements path.data)) := by
        simp [filepathClean, hempty, hr]
      rw [hdata, pathElements_cons_sep]
      refine ⟨by simp, by simp [hrooted], ?_, ?_⟩
      · cases hc : cleanElements true (pathElements path.data) with
        | nil => simp [joinElements, pathElements, dotDot]
        | cons e rest =>
          rw [← hc, pathElements_joinElements _ (by simp [hc]) (fun e he => (c1 e he).2.2)]
          refine List.pairwise_cons.2 ⟨?_, c2⟩
          intro b hb hbd
          exact absurd (hbd ▸ hb) (c3 rfl)
      · intro pos hpos
        rw [hpos hrooted, ← hw]
        cases hc : cleanElements true (pathElements path.data) with
        | nil => simp [joinElements, pathElements, walkElements]
        | cons e rest =>
          rw [← hc, pathElements_joinElements _ (by simp [hc]) (fun e he => (c1 e he).2.2)]
          simp [walkElements]
    | false =>
      have hrooted : ¬ path.data.head? = some pathSeparator := of_decide_eq_false hr
      obtain ⟨c1, c2, _⟩ := cleanElements_cleaned false (pathElements path.data) hsep
      cases hc : cleanElements false (pathElements path.data) with
      | nil =>
        have hdata : (filepathClean path).data = ['.'] := by
          simp [filepathClean, hempty, hr, hc, joinElements]
        rw [hdata, hdot]
        refine ⟨by simp, ⟨fun h => absurd h (by decide), fun h => absurd h hrooted⟩, by simp, ?_⟩
        intro pos _
        have hw := walkElements_cleanElements false (pathElements path.data) hsep pos
          (fun h => absurd h (by simp))
        rw [← hw, hc]
        simp [walkElements]
      | cons e rest =>
        have he := c1 e (by simp [hc])
        obtain ⟨c, e2, rfl⟩ := List.exists_cons_of_ne_nil he.1
        have hcsep : c ≠ pathSeparator := fun h => he.2.2 (by simp [h])
        have hdata : (filepathClean path).data =
            joinElements (cleanElements false (pathElements path.data)) := by
          simp [filepathClean, hempty, hr, hc, joinElements_cons_cons]
        rw [hdata, pathElements_joinElements _ (by simp [hc]) (fun e he => (c1 e he).2.2)]
        refine ⟨?_, ?_, c2, ?_⟩
        · rw [hc, joinElements_cons_cons]; simp
        · rw [hc, joinElements_cons_cons]
          simp [hrooted, hcsep]
        · intro pos _
          exact walkElements_cleanElements false (pathElements path.data) hsep pos
            (fun h => absurd h (by simp))

/-- A cleaned path resolves to the location of the path itself. -/
theorem resolvePath_filepathClean (cwd : List String) (path : String) :
    resolvePath cwd (filepathClean path) = resolvePath cwd path := by
  obtain ⟨_, hhead, _, hwalk⟩ := filepathClean_spec path
  unfold resolvePath
  by_cases hr : path.data.head? = some pathSeparator
  · rw [if_pos hr, if_pos (hhead.2 hr), hwalk [] (fun _ => rfl)]
  · rw [if_neg hr, if_neg (fun h => hr (hhead.1 h)), hwalk _ (fun h => absurd h hr)]

/-- A path that continues a directory path after a separator, with no `..` among the
further elements, resolves to a location in that directory or below. -/
theorem resolvePath_below (cwd : List String) (dir path : String) (more : List Char)
    (hdir : dir.data ≠ [])
    (hpath : path.data = dir.data ++ pathSeparator :: more)
    (hmore : ∀ e ∈ pathElements more, e ≠ dotDot) :
    resolvePath cwd dir <+: resolvePath cwd path := by
  have hhead : path.data.head? = dir.data.head? := by
    rw [hpath]
    cases h : dir.data with
    | nil => exact absurd h hdir
    | cons c cs => rfl
  unfold resolvePath
  rw [hhead, hpath, pathElements_append_sep, walkElements_append]
  exact List.IsPrefix.map _ (List.reverse_prefix.2 (walkElements_suffix _ _ hmore))

theorem pathElements_tail_ne_nil (l : List Char) (h : pathSeparator ∈ l) :
    ∃ e e2 rest, pathElements l = e :: e2 :: rest := by
  induction l with
  | nil => simp at h
  | cons c l ih =>
    by_cases hc : c = pathSeparator
    · subst hc
      rw [pathElements_cons_sep]
      cases hl : pathElements l with
      | nil =>
        cases l with
        | nil => simp [pathElements] at hl
        | cons c2 l2 =>
          by_cases hc2 : c2 = pathSeparator
          · subst hc2; rw [pathElements_cons_sep] at hl; simp at hl
          · obtain ⟨_, _, _, h2⟩ := pathElements_cons_other c2 l2 hc2
            rw [h2] at hl; simp at hl
      | cons e2 rest => exact ⟨[], e2, rest, rfl⟩
    · have hl : pathSeparator ∈ l := by
        rcases List.mem_cons.1 h with h | h
        · exact absurd h.symm hc
        · exact h
      obtain ⟨e, e2, rest, he⟩ := ih hl
      obtain ⟨e0, rest0, h1, h2⟩ := pathElements_cons_other c l hc
      rw [he] at h1
      simp only [List.cons.injEq] at h1
      obtain ⟨rfl, rfl⟩ := h1
      exact ⟨c :: e, e2, rest, h2⟩

/-- The elements of the directory part of a path with a separator are the elements of the
path with the last one emptied. -/
theorem pathElements_dirPart (l : List Char) (h : pathSeparator ∈ l) :
    pathElements (dirPart l) = (pathElements l).dropLast ++ [[]] := by
  induction l with
  | nil => simp at h
  | cons c l ih =>
    by_cases hl : pathSeparator ∈ l
    · have hd : dirPart (c :: l) = c :: dirPart l := by simp [dirPart, hl]
      obtain ⟨e, e2, rest, he⟩ := pathElements_tail_ne_nil l hl
      rw [hd]
      by_cases hc : c = pathSeparator
      · subst hc
        rw [pathElements_cons_sep, pathElements_cons_sep, ih hl, he]
        simp
      · obtain ⟨e0, rest0, h1, h2⟩ := pathElements_cons_other c l hc
        obtain ⟨e1, rest1, h3, h4⟩ := pathElements_cons_other c (dirPart l) hc
        rw [h4, h2]
        rw [ih hl, he] at h3
        rw [he] at h1
        simp only [List.cons.injEq] at h1
        obtain ⟨rfl, rfl⟩ := h1
        simp only [List.dropLast_cons₂, List.cons_append, List.cons.injEq] at h3
        obtain ⟨rfl, rfl⟩ := h3
        simp
    · have hc : c = pathSeparator := by
        rcases List.mem_cons.1 h with h | h
        · exact h.symm
        · exact absurd h hl
      subst hc
      have hd : dirPart (pathSeparator :: l) = [pathSeparator] := by simp [dirPart, hl]
      rw [hd, pathElements_cons_sep [], pathElements_cons_sep l, pathElements_of_no_sep l hl]
      rfl

theorem dirPart_of_no_sep (l : List Char) (h : pathSeparator ∉ l) : dirPart l = [] := by
  cases l with
  | nil => rfl
  | cons c l =>
    have hc : c ≠ pathSeparator := fun hc => h (by simp [hc])
    have hl : pathSeparator ∉ l := fun hl => h (List.mem_cons_of_mem _ hl)
    simp [dirPart, hl, hc]

/-- The directory part of a path that continues after a separator keeps everything up to
that separator. -/
theorem dirPart_append_sep (a b : List Char) :
    dirPart (a ++ pathSeparator :: b) = a ++ pathSeparator :: dirPart b := by
  induction a with
  | nil =>
    by_cases hb : pathSeparator ∈ b
    · simp [dirPart, hb]
    · simp [dirPart, hb, dirPart_of_no_sep b hb]
  | cons c a ih =>
    have hmem : pathSeparator ∈ a ++ pathSeparator :: b := by simp
    simp [dirPart, hmem, ih]

/-- The directory part of a path has no `..` element when the path has none. -/
theorem pathElements_dirPart_no_dotDot (l : List Char)
    (h : ∀ e ∈ pathElements l, e ≠ dotDot) : ∀ e ∈ pathElements (dirPart l), e ≠ dotDot := by
  by_cases hl : pathSeparator ∈ l
  · rw [pathElements_dirPart l hl]
    intro e he
    rcases List.mem_append.1 he with he | he
    · exact h e (List.mem_of_mem_dropLast he)
    · simp only [List.mem_singleton] at he
      subst he
      decide
  · rw [dirPart_of_no_sep l hl]
    intro e he
    simp only [pathElements, List.mem_singleton] at he
    subst he
    decide

/-- A cleaned path that starts with a directory path and a separator, where the directory
path does not end in `..`, has no `..` among its further elements. -/
theorem filepathClean_rest_no_dotDot (dir path : String)
    (hlast : (pathElements dir.data).getLast? ≠ some dotDot)
    (hpre : filepathHasPrefix (filepathClean path) (dir ++ "/") = true) :
    ∃ more, (filepathClean path).data = dir.data ++ pathSeparator :: more ∧
      ∀ e ∈ pathElements more, e ≠ dotDot := by
  obtain ⟨_, _, hpw, _⟩ := filepathClean_spec path
  have hp : (dir ++ "/").data <+: (filepathClean path).data := by
    simpa [filepathHasPrefix] using hpre
  obtain ⟨more, hmore⟩ := hp
  have hd : (filepathClean path).data = dir.data ++ pathSeparator :: more := by
    rw [← hmore]
    simp [pathSeparator]
  refine ⟨more, hd, ?_⟩
  rw [hd, pathElements_append_sep] at hpw
  intro e he hdd
  have hne : pathElements dir.data ≠ [] := by
    cases h : dir.data with
    | nil => simp [pathElements]
    | cons c cs =>
      by_cases hc : c = pathSeparator
      · subst hc; rw [pathElements_cons_sep]; simp
      · obtain ⟨_, _, _, h2⟩ := pathElements_cons_other c cs hc
        rw [h2]; simp
  have hl := (List.pairwise_append.1 hpw).2.2 _ (List.getLast_mem hne) e he hdd
  apply hlast
  rw [List.getLast?_eq_getLast _ hne, hl]

/-! ## The extraction script -/

/-- An entry that passes the check of `extractZip` for an output directory whose cleaned
path does not end in `..`: its destination path and the directory of that path lie in the
output directory or below. -/
theorem checked_entry_within (cwd : List String) (outputDir name : String)
    (hlast : (pathElements (filepathClean outputDir).data).getLast? ≠ some dotDot)
    (hcheck : filepathHasPrefix (filepathJoin outputDir name)
      (filepathClean outputDir ++ "/") = true) :
    withinDir cwd outputDir (filepathJoin outputDir name) = true ∧
    withinDir cwd outputDir (filepathDir (filepathJoin outputDir name)) = true := by
  have hdne : (filepathClean outputDir).data ≠ [] := (filepathClean_spec outputDir).1
  have hjoin : ∃ x, filepathJoin outputDir name = filepathClean x := by
    unfold filepathJoin
    split
    · exact ⟨_, rfl⟩
    · split
      · exact ⟨_, rfl⟩
      · rename_i h1 h2
        exfalso
        have : filepathJoin outputDir name = "" := by simp [filepathJoin, h1, h2]
        rw [this] at hcheck
        simp [filepathHasPrefix] at hcheck
  obtain ⟨x, hx⟩ := hjoin
  rw [hx] at hcheck ⊢
  obtain ⟨more, hdata, hmore⟩ :=
    filepathClean_rest_no_dotDot (filepathClean outputDir) x hlast hcheck
  constructor
  · have := resolvePath_below cwd (filepathClean outputDir) (filepathClean x) more hdne hdata
      hmore
    rw [resolvePath_filepathClean] at this
    simpa [withinDir] using this
  · have hdir : (String.mk (dirPart (filepathClean x).data)).data =
        (filepathClean outputDir).data ++ pathSeparator :: dirPart more := by
      show dirPart (filepathClean x).data = _
      rw [hdata, dirPart_append_sep]
    have := resolvePath_below cwd (filepathClean outputDir)
      (String.mk (dirPart (filepathClean x).data)) (dirPart more) hdne hdir
      (pathElements_dirPart_no_dotDot more hmore)
    rw [resolvePath_filepathClean] at this
    unfold withinDir filepathDir
    rw [resolvePath_filepathClean]
    simpa using this

/-- The loop of `extractZip` creates and writes only in the output directory or below, for
an output directory whose cleaned path does not end in `..`. -/
theorem extractEntries_within (cwd : List String) (outputDir : String)
    (hlast : (pathElements (filepathClean outputDir).data).getLast? ≠ some dotDot)
    (files : List ZipFile) :
    ∀ e ∈ (extractEntries outputDir files).2, ∀ p, e.target = some p →
      withinDir cwd outputDir p = true := by
  induction files with
  | nil => simp [extractEntries]
  | cons file rest ih =>
    intro e he p hp
    unfold extractEntries at he
    by_cases hcheck : filepathHasPrefix (filepathJoin outputDir file.name)
        (filepathClean outputDir ++ "/") = false
    · simp [hcheck] at he
    · have hc : filepathHasPrefix (filepathJoin outputDir file.name)
          (filepathClean outputDir ++ "/") = true := by simpa using hcheck
      obtain ⟨hin, hdir⟩ := checked_entry_within cwd outputDir file.name hlast hc
      have key : ∀ l : List FsEffect,
          (∀ x ∈ l, ∀ q, x.target = some q →
            q = filepathJoin outputDir file.name ∨
            q = filepathDir (filepathJoin outputDir file.name)) →
          e ∈ l ++ (extractEntries outputDir rest).2 ∨ e ∈ l → withinDir cwd outputDir p = true := by
        intro l hl hmem
        have hcase : e ∈ l ∨ e ∈ (extractEntries outputDir rest).2 := by
          rcases hmem with h | h
          · rcases List.mem_append.1 h with h | h
            · exact Or.inl h
            · exact Or.inr h
          · exact Or.inl h
        rcases hcase with h | h
        · rcases hl e h p hp with rfl | rfl
          · exact hin
          · exact hdir
        · exact ih e h p hp
      simp only [hc, Bool.true_eq_false, if_false] at he
      split at he
      · exact key [FsEffect.mkdirAll (filepathJoin outputDir file.name)]
          (by simp [FsEffect.target]) (Or.inl (by simpa using he))
      · split at he
        · exact key [FsEffect.mkdirAll (filepathDir (filepathJoin outputDir file.name))]
            (by simp [FsEffect.target]) (Or.inr he)
        · split at he
          · exact key _ (by
              intro x hx q hq
              simp only [List.mem_cons, List.mem_singleton, List.not_mem_nil, or_false] at hx
              rcases hx with rfl | rfl <;> simp [FsEffect.target] at hq <;> simp [hq]) (Or.inr he)
          · split at he
            · exact key _ (by
                intro x hx q hq
                simp only [List.mem_cons, List.mem_singleton, List.not_mem_nil, or_false] at hx
                rcases hx with rfl | rfl | rfl | rfl <;> simp [FsEffect.target] at hq <;>
                  simp [hq]) (Or.inr he)
            · split at he
              · exact key _ (by
                  intro x hx q hq
                  simp only [List.mem_cons, List.mem_singleton, List.not_mem_nil,
                    or_false] at hx
                  rcases hx with rfl | rfl | rfl | rfl | rfl | rfl <;>
                    simp [FsEffect.target] at hq <;> simp [hq]) (Or.inr he)
              · exact key _ (by
                  intro x hx q hq
                  simp only [List.mem_cons, List.mem_singleton, List.not_mem_nil,
                    or_false] at hx
                  rcases hx with rfl | rfl | rfl | rfl | rfl | rfl <;>
                    simp [FsEffect.target] at hq <;> simp [hq]) (Or.inl he)

/-- For an output directory whose cleaned path does not end in `..`, every directory and
file that `extractZip` creates or writes lies in the output directory or below, whatever
the entries of the archive and the working directory of the process. -/
theorem extractZip_within_outputDir (cwd : List String) (openErr : Option GoError)
    (files : List ZipFile) (zipPath outputDir : String)
    (hlast : (pathElements (filepathClean outputDir).data).getLast? ≠ some dotDot) :
    ∀ e ∈ (extractZip openErr files zipPath outputDir).2, ∀ p, e.target = some p →
      withinDir cwd outputDir p = true := by
  intro e he p hp
  unfold extractZip at he
  cases openErr with
  | some err =>
    simp only [List.mem_singleton] at he
    subst he
    simp [FsEffect.target] at hp
  | none =>
    simp only [List.mem_cons, List.mem_append, List.not_mem_nil, or_false] at he
    rcases he with (rfl | he) | rfl
    · simp [FsEffect.target] at hp
    · exact extractEntries_within cwd outputDir hlast files e he p hp
    · simp [FsEffect.target] at hp

/-- An instance of `extractZip_within_outputDir`: with the output directory `ui/dist`, the
archive entries `index.html`, `assets/app.js` and `../x` lead to no call outside
`ui/dist`; the extraction stops at the third entry with the invalid-path error. -/
theorem extractZip_within_outputDir_example :
    (extractZip none [plainFile "index.html", plainFile "assets/app.js", plainFile "../x"]
      "ui.zip" "ui/dist").1 = some (.new "invalid file path: ../x") ∧
    ∀ e ∈ (extractZip none
        [plainFile "index.html", plainFile "assets/app.js", plainFile "../x"]
        "ui.zip" "ui/dist").2,
      ∀ p, e.target = some p → withinDir ["home", "user", "project"] "ui/dist" p = true :=
  ⟨by decide, extractZip_within_outputDir ["home", "user", "project"] none _ "ui.zip" "ui/dist"
    (by decide)⟩

/-- C11, at a failing input. With the output directory `..` and an archive whose only entry
is named `../x`, the destination path is `../../x`, which starts with `../`, so the check
passes: `extractZip` returns no error and creates and writes the file `../../x`. For a
process working in `/home/user/project` that file is `/home/x`, outside the output
directory `/home/user`. The output directory `dist/../..`, which cleans to `..`, gives the
same write. -/
theorem extractZip_writes_outside :
    filepathJoin ".." "../x" = "../../x" ∧
    filepathHasPrefix "../../x" (filepathClean ".." ++ "/") = true ∧
    extractZip none [plainFile "../x"] "ui.zip" ".." =
      (none,
        [FsEffect.openReader "ui.zip", FsEffect.mkdirAll "../..", FsEffect.openFile "../../x",
         FsEffect.openEntry "../x", FsEffect.copy "../../x" "../x",
         FsEffect.closeFile "../../x", FsEffect.closeEntry "../x", FsEffect.closeReader]) ∧
    resolvePath ["home", "user", "project"] ".." = ["home", "user"] ∧
    resolvePath ["home", "user", "project"] "../../x" = ["home", "x"] ∧
    withinDir ["home", "user", "project"] ".." "../../x" = false ∧
    FsEffect.openFile "../../x" ∈
      (extractZip none [plainFile "../x"] "ui.zip" "dist/../..").2 := by
  decide

end Teldrive
